import Mathlib

/-!
# IAM policy reconciliation (bootstrap/cmd/bootstrap/app/gcpUtils.go)

A shallow embedding of `GetClearServiceAccountpolicy`, `PrepareAccount`,
`GetUpdatedPolicy` and `ksServer.ApplyIamPolicy`.

Modelling conventions.

* A Go `map[string]V` is an association list with at most one entry per key
  (`mapGet`, `mapSet`).  Go leaves the iteration order of a map unspecified; the
  model iterates in order of first insertion.  Every statement about the output of
  `GetUpdatedPolicy` is therefore phrased on roles and member *sets*, never on the
  position of a binding or member.
* Go loops with `append` are left folds that append at the end.
* The remote policy store is a state machine over an arbitrary state type: a call
  returns its result together with the next state.  `ApplyIamPolicy` returns its
  error value, the final store state and the trace of its observable events.
-/

namespace GcpUtils

/-! ## Go maps -/

/-- Read of a Go map: `v, ok := m[k]`. -/
def mapGet {V : Type} : List (String × V) → String → Option V
  | [], _ => none
  | (k', v) :: m, k => if k' = k then some v else mapGet m k

/-- Write of a Go map: `m[k] = v`. -/
def mapSet {V : Type} : List (String × V) → String → V → List (String × V)
  | [], k, v => [(k, v)]
  | (k', v') :: m, k, v => if k' = k then (k', v) :: m else (k', v') :: mapSet m k v

/-- Keys of a Go map. -/
def mapKeys {V : Type} (m : List (String × V)) : List String := m.map Prod.fst

/-- Write through a map of maps: `m[k][k2] = v`.  Both callers create `m[k]` just before,
so the inner map exists; were it absent, the inner map written is the empty one. -/
def mapSetInner (m : List (String × List (String × Bool))) (k k2 : String) (v : Bool) :
    List (String × List (String × Bool)) :=
  mapSet m k (mapSet ((mapGet m k).getD []) k2 v)

/-! ## Data model -/

/-- The type cloudresourcemanager.Binding: a role and its members. -/
structure Binding where
  Role : String
  Members : List String
deriving DecidableEq, Repr

/-- The type cloudresourcemanager.Policy, reduced to its bindings. -/
structure Policy where
  Bindings : List Binding
deriving DecidableEq, Repr

/-- The type IamBinding of the template. -/
structure IamBinding where
  Members : List String
  Roles : List String
deriving DecidableEq, Repr

/-- The type IamConf: the binding template. -/
structure IamConf where
  IamBindings : List IamBinding
deriving DecidableEq, Repr

/-- The type ApplyIamRequest. -/
structure ApplyIamRequest where
  Project : String
  Cluster : String
  Email : String
  Token : String
  Action : String
deriving DecidableEq, Repr

/-- Role `r` occurs in some binding of the policy. -/
def Policy.hasRole (p : Policy) (r : String) : Prop :=
  ∃ b ∈ p.Bindings, b.Role = r

/-- Principal `m` is a member of some binding of role `r`. -/
def Policy.hasMember (p : Policy) (r m : String) : Prop :=
  ∃ b ∈ p.Bindings, b.Role = r ∧ m ∈ b.Members

/-- Each role appears in at most one binding. -/
def Policy.uniqueRoles (p : Policy) : Prop :=
  (p.Bindings.map Binding.Role).Nodup

instance (p : Policy) : Decidable p.uniqueRoles :=
  inferInstanceAs (Decidable (List.Nodup _))

instance (p : Policy) (r m : String) : Decidable (p.hasMember r m) :=
  inferInstanceAs (Decidable (∃ b ∈ p.Bindings, b.Role = r ∧ m ∈ b.Members))

instance (p : Policy) (r : String) : Decidable (p.hasRole r) :=
  inferInstanceAs (Decidable (∃ b ∈ p.Bindings, b.Role = r))

/-! ## strings.Contains and PrepareAccount -/

/-- Substring test on character lists. -/
def containsChars : List Char → List Char → Bool
  | [], sub => sub.isPrefixOf []
  | c :: s, sub => sub.isPrefixOf (c :: s) || containsChars s sub

/-- The Go function strings.Contains. -/
def stringsContains (s substr : String) : Bool :=
  containsChars s.data substr.data

/-- The function PrepareAccount. -/
def PrepareAccount (account : String) : String :=
  if stringsContains account "iam.gserviceaccount.com" then
    "serviceAccount:" ++ account
  else if stringsContains account "google-kubeflow-support" then
    "group:" ++ account
  else
    "user:" ++ account

/-! ## GetClearServiceAccountpolicy -/

/-- The map literal `serviceAccounts` of GetClearServiceAccountpolicy. -/
def serviceAccounts (req : ApplyIamRequest) : List (String × Bool) :=
  mapSet
    (mapSet
      (mapSet []
        ("serviceAccount:" ++ req.Cluster ++ "-admin@" ++ req.Project ++ ".iam.gserviceaccount.com") true)
      ("serviceAccount:" ++ req.Cluster ++ "-user@" ++ req.Project ++ ".iam.gserviceaccount.com") true)
    ("serviceAccount:" ++ req.Cluster ++ "-vm@" ++ req.Project ++ ".iam.gserviceaccount.com") true

/-- Inner loop of GetClearServiceAccountpolicy: the members of one binding that are not a key
of `serviceAccounts`, appended in order. -/
def clearMembers (sa : List (String × Bool)) (members : List String) : List String :=
  members.foldl
    (fun acc member => if (mapGet sa member).isSome then acc else acc ++ [member]) []

/-- The function GetClearServiceAccountpolicy. -/
def GetClearServiceAccountpolicy (currentPolicy : Policy) (req : ApplyIamRequest) : Policy :=
  Policy.mk
    (currentPolicy.Bindings.foldl
      (fun bindings binding =>
        bindings ++ [Binding.mk binding.Role (clearMembers (serviceAccounts req) binding.Members)])
      [])

/-! ## GetUpdatedPolicy -/

/-- First loop of GetUpdatedPolicy: the map from role to member set of the current policy. -/
def buildPolicyMap (currentPolicy : Policy) : List (String × List (String × Bool)) :=
  currentPolicy.Bindings.foldl
    (fun policyMap binding =>
      binding.Members.foldl
        (fun policyMap member => mapSetInner policyMap binding.Role member true)
        (mapSet policyMap binding.Role []))
    []

/-- The map literal `saMapping` of GetUpdatedPolicy. -/
def saMapping (req : ApplyIamRequest) : List (String × String) :=
  mapSet
    (mapSet
      (mapSet
        (mapSet []
          "set-kubeflow-admin-service-account"
          (PrepareAccount (req.Cluster ++ "-admin@" ++ req.Project ++ ".iam.gserviceaccount.com")))
        "set-kubeflow-user-service-account"
        (PrepareAccount (req.Cluster ++ "-user@" ++ req.Project ++ ".iam.gserviceaccount.com")))
      "set-kubeflow-vm-service-account"
      (PrepareAccount (req.Cluster ++ "-vm@" ++ req.Project ++ ".iam.gserviceaccount.com")))
    "set-kubeflow-iap-account"
    (PrepareAccount req.Email)

/-- The member actually written for a template member: its `saMapping` value when it is a
key of `saMapping`, the member itself otherwise. -/
def actualMember (req : ApplyIamRequest) (member : String) : String :=
  match mapGet (saMapping req) member with
  | some val => val
  | none => member

/-- Innermost loop body of GetUpdatedPolicy: one (role, member) pair of the template. -/
def applyRole (req : ApplyIamRequest) (actual : String)
    (policyMap : List (String × List (String × Bool))) (role : String) :
    List (String × List (String × Bool)) :=
  let policyMap := if (mapGet policyMap role).isSome then policyMap else mapSet policyMap role []
  if req.Action = "add" then
    mapSetInner policyMap role actual true
  else
    mapSetInner policyMap role actual false

/-- Second loop of GetUpdatedPolicy: the template applied to the role map. -/
def applyTemplate (iamConf : IamConf) (req : ApplyIamRequest)
    (policyMap : List (String × List (String × Bool))) : List (String × List (String × Bool)) :=
  iamConf.IamBindings.foldl
    (fun policyMap binding =>
      binding.Members.foldl
        (fun policyMap member =>
          binding.Roles.foldl (applyRole req (actualMember req member)) policyMap)
        policyMap)
    policyMap

/-- Inner loop of the emission: the members whose flag is true. -/
def emitMembers (memberSet : List (String × Bool)) : List String :=
  memberSet.foldl (fun members e => if e.2 then members ++ [e.1] else members) []

/-- Third loop of GetUpdatedPolicy: one binding per role of the map. -/
def emitPolicy (policyMap : List (String × List (String × Bool))) : Policy :=
  Policy.mk
    (policyMap.foldl (fun bindings e => bindings ++ [Binding.mk e.1 (emitMembers e.2)]) [])

/-- The function GetUpdatedPolicy. -/
def GetUpdatedPolicy (currentPolicy : Policy) (iamConf : IamConf) (req : ApplyIamRequest) :
    Policy :=
  emitPolicy (applyTemplate iamConf req (buildPolicyMap currentPolicy))

/-! ## ApplyIamPolicy -/

/-- A Go error value, identified by its message. -/
abbrev Error := String

/-- Observable events of one call of ApplyIamPolicy.  The events `lock p` and `unlock p` are
`Lock()` and the deferred `Unlock()` on the value of `s.GetProjectLock(p)`; the method
GetProjectLock is not part of this file and is taken as giving one lock per project id. -/
inductive Event where
  | lock (project : String)
  | unlock (project : String)
  | getIamPolicy (project : String)
  | setIamPolicy (project : String) (policy : Policy)
  | sleep (seconds : Nat)
deriving DecidableEq, Repr

/-- The remote policy store behind `resourceManager.Projects`: each call returns its result
and the next state of the store. -/
structure Remote (σ : Type) where
  getIamPolicy : σ → String → Except Error Policy × σ
  setIamPolicy : σ → String → Policy → Option Error × σ

/-- The collaborators of ApplyIamPolicy: the result of LoadConfig on the template path, the
error of cloudresourcemanager.New, and the remote store. -/
structure Env (σ : Type) where
  loadConfig : Except Error IamConf
  newClient : Option Error
  remote : Remote σ

/-- State at the end of the retry loop: the store, the events so far, and the value of the
variable `err` declared inside the loop body by `saPolicy, err := ...` in the last attempt. -/
structure LoopEnd (σ : Type) where
  store : σ
  trace : List Event
  bodyErr : Option Error

/-- The loop `for retry < 5` of ApplyIamPolicy, by the number of attempts left
(`5 - retry`). -/
def retryLoop {σ : Type} (rm : Remote σ) (iamConf : IamConf) (req : ApplyIamRequest) :
    Nat → σ → List Event → Option Error → LoopEnd σ
  | 0, s, tr, bodyErr => LoopEnd.mk s tr bodyErr
  | n + 1, s, tr, _ =>
    match rm.getIamPolicy s req.Project with
    | (Except.error e, s1) =>
      retryLoop rm iamConf req n s1
        (tr ++ [Event.getIamPolicy req.Project, Event.sleep 3]) (some e)
    | (Except.ok saPolicy, s1) =>
      let clearedPolicy := GetClearServiceAccountpolicy saPolicy req
      match rm.setIamPolicy s1 req.Project clearedPolicy with
      | (some e, s2) =>
        retryLoop rm iamConf req n s2
          (tr ++ [Event.getIamPolicy req.Project, Event.setIamPolicy req.Project clearedPolicy,
            Event.sleep 3]) (some e)
      | (none, s2) =>
        let newPolicy := GetUpdatedPolicy saPolicy iamConf req
        match rm.setIamPolicy s2 req.Project newPolicy with
        | (some e, s3) =>
          retryLoop rm iamConf req n s3
            (tr ++ [Event.getIamPolicy req.Project, Event.setIamPolicy req.Project clearedPolicy,
              Event.setIamPolicy req.Project newPolicy, Event.sleep 3]) (some e)
        | (none, s3) =>
          LoopEnd.mk s3
            (tr ++ [Event.getIamPolicy req.Project, Event.setIamPolicy req.Project clearedPolicy,
              Event.setIamPolicy req.Project newPolicy]) none

/-- Result of one call of ApplyIamPolicy. -/
structure Outcome (σ : Type) where
  err : Option Error
  store : σ
  trace : List Event
  bodyErr : Option Error

/-- The method ksServer.ApplyIamPolicy.  The variable `err` of the function scope is assigned
by LoadConfig and by cloudresourcemanager.New only: inside the loop body `saPolicy, err := ...`
declares a new `err` in the scope of the body, and the assignments `_, err = ...` that follow
write that inner variable.  The test `if err != nil` after the loop reads the variable of the
function scope. -/
def ApplyIamPolicy {σ : Type} (env : Env σ) (s : σ) (req : ApplyIamRequest) : Outcome σ :=
  match env.loadConfig with
  | Except.error e => Outcome.mk (some e) s [] none
  | Except.ok iamConf =>
    let err := env.newClient
    match err with
    | some e => Outcome.mk (some e) s [] none
    | none =>
      let fin := retryLoop env.remote iamConf req 5 s [Event.lock req.Project] none
      Outcome.mk
        (match err with
          | some e => some e
          | none => none)
        fin.store (fin.trace ++ [Event.unlock req.Project]) fin.bodyErr

/-- The policies pushed by SetIamPolicy, in order. -/
def pushes : List Event → List Policy
  | [] => []
  | Event.setIamPolicy _ p :: tr => p :: pushes tr
  | _ :: tr => pushes tr

/-! ## Concrete inputs -/

/-- A store whose fetch fails on every call; the state counts the calls and the error names
the call. -/
def failingRemote : Remote Nat :=
  Remote.mk
    (fun s _ => (Except.error ([ "e1", "e2", "e3", "e4", "e5" ].getD s "e"), s + 1))
    (fun s _ _ => (none, s + 1))

/-- Scenario A: the fetched policy. -/
def scenarioAPolicy : Policy :=
  Policy.mk
    [Binding.mk "roles/viewer"
      ["serviceAccount:c1-admin@p1.iam.gserviceaccount.com", "user:alice@example.com"]]

/-- Scenario A: the template. -/
def scenarioATemplate : IamConf :=
  IamConf.mk [IamBinding.mk ["set-kubeflow-admin-service-account"] ["roles/editor"]]

/-- Scenario A: the request. -/
def scenarioARequest : ApplyIamRequest :=
  ApplyIamRequest.mk "p1" "c1" "" "" "add"

/-- A store that always answers the fetch with the Scenario A policy and accepts every push. -/
def scenarioARemote : Remote Unit :=
  Remote.mk (fun s _ => (Except.ok scenarioAPolicy, s)) (fun s _ _ => (none, s))

/-! ## Semantics of the role map -/

/-- Flag stored for principal `m` under role `r`, if any. -/
def mapVal (policyMap : List (String × List (String × Bool))) (r m : String) : Option Bool :=
  (mapGet policyMap r).bind (fun memberSet => mapGet memberSet m)

/-- The role map and each of its member sets have at most one entry per key. -/
def wfMap (policyMap : List (String × List (String × Bool))) : Prop :=
  (mapKeys policyMap).Nodup ∧
    ∀ r memberSet, mapGet policyMap r = some memberSet → (mapKeys memberSet).Nodup

/-- The set T(r): `m` is the resolved principal of a member of a template binding whose role
list contains `r`. -/
def templateMember (iamConf : IamConf) (req : ApplyIamRequest) (r m : String) : Prop :=
  ∃ tb ∈ iamConf.IamBindings, r ∈ tb.Roles ∧ ∃ x ∈ tb.Members, actualMember req x = m

/-- Role `r` is in the role list of a template binding that has at least one member. -/
def templateRole (iamConf : IamConf) (r : String) : Prop :=
  ∃ tb ∈ iamConf.IamBindings, tb.Members ≠ [] ∧ r ∈ tb.Roles

/-- The request with its Action replaced. -/
def withAction (req : ApplyIamRequest) (action : String) : ApplyIamRequest :=
  ApplyIamRequest.mk req.Project req.Cluster req.Email req.Token action

instance (iamConf : IamConf) (req : ApplyIamRequest) (r m : String) :
    Decidable (templateMember iamConf req r m) :=
  inferInstanceAs
    (Decidable (∃ tb ∈ iamConf.IamBindings, r ∈ tb.Roles ∧ ∃ x ∈ tb.Members, actualMember req x = m))

instance (iamConf : IamConf) (r : String) : Decidable (templateRole iamConf r) :=
  inferInstanceAs (Decidable (∃ tb ∈ iamConf.IamBindings, tb.Members ≠ [] ∧ r ∈ tb.Roles))

/-- The four keys of `saMapping`. -/
def placeholderTokens : List String :=
  ["set-kubeflow-admin-service-account", "set-kubeflow-user-service-account",
    "set-kubeflow-vm-service-account", "set-kubeflow-iap-account"]

/-! ## Concrete inputs, continued -/

/-- Collaborators of a call whose template loads, whose client is created and whose store
fails every fetch. -/
def failingEnv : Env Nat :=
  Env.mk (Except.ok scenarioATemplate) none failingRemote

/-- Collaborators of Scenario A. -/
def scenarioAEnv : Env Unit :=
  Env.mk (Except.ok scenarioATemplate) none scenarioARemote

/-- A policy in which alice views. -/
def alicePolicy : Policy :=
  Policy.mk [Binding.mk "roles/viewer" ["user:alice@example.com"]]

/-- A template that names alice, already prefixed, for the viewer role. -/
def aliceTemplate : IamConf :=
  IamConf.mk [IamBinding.mk ["user:alice@example.com"] ["roles/viewer"]]

/-- A template whose only member is a bare address, not a placeholder. -/
def bobTemplate : IamConf :=
  IamConf.mk [IamBinding.mk ["bob@example.com"] ["roles/viewer"]]

/-- A request of cluster c1 and project p1 with action remove. -/
def removeRequest : ApplyIamRequest :=
  ApplyIamRequest.mk "p1" "c1" "" "" "remove"

/-! ## Substrings -/

/-- String `s` contains `sub`: some text, then `sub`, then some text. -/
def hasSubstring (s sub : String) : Prop :=
  ∃ u v : String, s = u ++ sub ++ v

/-- The three kinds of principal, as written before the address. -/
def kindMarks : List String := ["serviceAccount:", "group:", "user:"]

/-- The last binding of role `r` in a list of bindings, if there is one. -/
def lastBinding : List Binding → String → Option Binding
  | [], _ => none
  | b :: bs, r =>
    match lastBinding bs r with
    | some b2 => some b2
    | none => if b.Role = r then some b else none

/-- A request of cluster c1 and project p1 whose action is the unknown verb Add. -/
def capitalAddRequest : ApplyIamRequest :=
  ApplyIamRequest.mk "p1" "c1" "" "" "Add"

/-- A policy with two bindings of roles/viewer: alice in the first, bob in the second. -/
def duplicatedRolePolicy : Policy :=
  Policy.mk
    [Binding.mk "roles/viewer" ["user:alice@example.com"],
     Binding.mk "roles/viewer" ["user:bob@example.com"]]

/-! ## One attempt of the retry loop -/

/-- End of one pass through the body of the retry loop: the store, the remote calls issued by
the pass, and the error of the pass (nil when the fetch and both pushes succeeded). -/
structure AttemptEnd (σ : Type) where
  store : σ
  events : List Event
  err : Option Error

/-- One pass through the body of the loop `for retry < 5`, from the fetch to the `continue`
or `break` that ends it, the sleep left out. -/
def attempt {σ : Type} (rm : Remote σ) (iamConf : IamConf) (req : ApplyIamRequest) (s : σ) :
    AttemptEnd σ :=
  match rm.getIamPolicy s req.Project with
  | (Except.error e, s1) => AttemptEnd.mk s1 [Event.getIamPolicy req.Project] (some e)
  | (Except.ok saPolicy, s1) =>
    let clearedPolicy := GetClearServiceAccountpolicy saPolicy req
    match rm.setIamPolicy s1 req.Project clearedPolicy with
    | (some e, s2) =>
      AttemptEnd.mk s2
        [Event.getIamPolicy req.Project, Event.setIamPolicy req.Project clearedPolicy] (some e)
    | (none, s2) =>
      let newPolicy := GetUpdatedPolicy saPolicy iamConf req
      match rm.setIamPolicy s2 req.Project newPolicy with
      | (some e, s3) =>
        AttemptEnd.mk s3
          [Event.getIamPolicy req.Project, Event.setIamPolicy req.Project clearedPolicy,
            Event.setIamPolicy req.Project newPolicy] (some e)
      | (none, s3) =>
        AttemptEnd.mk s3
          [Event.getIamPolicy req.Project, Event.setIamPolicy req.Project clearedPolicy,
            Event.setIamPolicy req.Project newPolicy] none

/-- The store after `j` attempts. -/
def storeAfter {σ : Type} (rm : Remote σ) (iamConf : IamConf) (req : ApplyIamRequest) :
    Nat → σ → σ
  | 0, s => s
  | j + 1, s => storeAfter rm iamConf req j (attempt rm iamConf req s).store

/-- The events of `j` failed attempts, each followed by its wait of 3 seconds. -/
def failedTrace {σ : Type} (rm : Remote σ) (iamConf : IamConf) (req : ApplyIamRequest) :
    Nat → σ → List Event
  | 0, _ => []
  | j + 1, s =>
    (attempt rm iamConf req s).events ++ [Event.sleep 3]
      ++ failedTrace rm iamConf req j (attempt rm iamConf req s).store

/-- Number of calls of GetIamPolicy in a trace. -/
def fetches : List Event → Nat
  | [] => 0
  | Event.getIamPolicy _ :: tr => fetches tr + 1
  | _ :: tr => fetches tr

/-- The waits of a trace, in seconds, in order. -/
def sleeps : List Event → List Nat
  | [] => []
  | Event.sleep n :: tr => n :: sleeps tr
  | _ :: tr => sleeps tr

/-- The event acquires or releases a project lock. -/
def isLockEvent : Event → Bool
  | Event.lock _ => true
  | Event.unlock _ => true
  | _ => false

/-- The order of remote calls the retry loop is to follow, as a grammar of event sequences
from a number of attempts left and a store state.  With no attempt left the run is over.  With
an attempt left, the attempt is a failed fetch and a wait; or a fetch, a failed push of the
scrubbed fetched policy and a wait; or a fetch, a push of the scrubbed policy, a failed push of
the policy merged from the same fetched policy and a wait; each of these is followed by the
run of the attempts that remain; or, ending the run, the attempt is a fetch and the two pushes,
all successful. -/
inductive OrderedRun {σ : Type} (rm : Remote σ) (iamConf : IamConf) (req : ApplyIamRequest) :
    Nat → σ → List Event → Prop where
  | done (s : σ) : OrderedRun rm iamConf req 0 s []
  | fetchFailed (n : Nat) (s s1 : σ) (e : Error) (rest : List Event)
      (hfetch : rm.getIamPolicy s req.Project = (Except.error e, s1))
      (hrest : OrderedRun rm iamConf req n s1 rest) :
      OrderedRun rm iamConf req (n + 1) s
        (Event.getIamPolicy req.Project :: Event.sleep 3 :: rest)
  | scrubFailed (n : Nat) (s s1 s2 : σ) (fetched : Policy) (e : Error) (rest : List Event)
      (hfetch : rm.getIamPolicy s req.Project = (Except.ok fetched, s1))
      (hscrub : rm.setIamPolicy s1 req.Project (GetClearServiceAccountpolicy fetched req)
        = (some e, s2))
      (hrest : OrderedRun rm iamConf req n s2 rest) :
      OrderedRun rm iamConf req (n + 1) s
        (Event.getIamPolicy req.Project
          :: Event.setIamPolicy req.Project (GetClearServiceAccountpolicy fetched req)
          :: Event.sleep 3 :: rest)
  | mergeFailed (n : Nat) (s s1 s2 s3 : σ) (fetched : Policy) (e : Error) (rest : List Event)
      (hfetch : rm.getIamPolicy s req.Project = (Except.ok fetched, s1))
      (hscrub : rm.setIamPolicy s1 req.Project (GetClearServiceAccountpolicy fetched req)
        = (none, s2))
      (hmerge : rm.setIamPolicy s2 req.Project (GetUpdatedPolicy fetched iamConf req)
        = (some e, s3))
      (hrest : OrderedRun rm iamConf req n s3 rest) :
      OrderedRun rm iamConf req (n + 1) s
        (Event.getIamPolicy req.Project
          :: Event.setIamPolicy req.Project (GetClearServiceAccountpolicy fetched req)
          :: Event.setIamPolicy req.Project (GetUpdatedPolicy fetched iamConf req)
          :: Event.sleep 3 :: rest)
  | succeeded (n : Nat) (s s1 s2 s3 : σ) (fetched : Policy)
      (hfetch : rm.getIamPolicy s req.Project = (Except.ok fetched, s1))
      (hscrub : rm.setIamPolicy s1 req.Project (GetClearServiceAccountpolicy fetched req)
        = (none, s2))
      (hmerge : rm.setIamPolicy s2 req.Project (GetUpdatedPolicy fetched iamConf req)
        = (none, s3)) :
      OrderedRun rm iamConf req (n + 1) s
        [Event.getIamPolicy req.Project,
          Event.setIamPolicy req.Project (GetClearServiceAccountpolicy fetched req),
          Event.setIamPolicy req.Project (GetUpdatedPolicy fetched iamConf req)]

/-- The fetch issued from store state `s` fails. -/
def fetchFails {σ : Type} (rm : Remote σ) (req : ApplyIamRequest) (s : σ) : Bool :=
  match (rm.getIamPolicy s req.Project).1 with
  | Except.error _ => true
  | Except.ok _ => false

/-- Scenario D: the fetch fails on the first five calls of the store and would succeed on a
sixth; every push succeeds.  The state counts the fetches. -/
def scenarioDRemote : Remote Nat :=
  Remote.mk
    (fun s _ =>
      if s < 5 then (Except.error "unavailable", s + 1) else (Except.ok scenarioAPolicy, s + 1))
    (fun s _ _ => (none, s))

/-- Collaborators of Scenario D. -/
def scenarioDEnv : Env Nat :=
  Env.mk (Except.ok scenarioATemplate) none scenarioDRemote

/-- Scenario C: the fetch fails on the first four calls of the store and succeeds afterwards;
every push succeeds.  The state counts the fetches. -/
def scenarioCRemote : Remote Nat :=
  Remote.mk
    (fun s _ =>
      if s < 4 then (Except.error "unavailable", s + 1) else (Except.ok scenarioAPolicy, s + 1))
    (fun s _ _ => (none, s))

/-- Collaborators of Scenario C. -/
def scenarioCEnv : Env Nat :=
  Env.mk (Except.ok scenarioATemplate) none scenarioCRemote

/-- Collaborators of a call whose template fails to load. -/
def loadFailEnv : Env Unit :=
  Env.mk (Except.error "cannot read template") none scenarioARemote

/-! ## Go maps: lemmas -/

theorem mapGet_mapSet {V : Type} (m : List (String × V)) (k k2 : String) (v : V) :
    mapGet (mapSet m k v) k2 = if k = k2 then some v else mapGet m k2 := by
  induction m with
  | nil => simp [mapSet, mapGet]
  | cons e m ih =>
    obtain ⟨k1, v1⟩ := e
    by_cases h1 : k1 = k
    · subst h1
      by_cases h2 : k1 = k2 <;> simp [mapSet, mapGet, h2]
    · by_cases h2 : k1 = k2
      · subst h2
        have h3 : ¬ k = k1 := fun h => h1 h.symm
        simp [mapSet, mapGet, h1, h3]
      · simp [mapSet, mapGet, h1, h2, ih]

theorem mem_mapKeys_mapSet {V : Type} (m : List (String × V)) (k k2 : String) (v : V) :
    k2 ∈ mapKeys (mapSet m k v) ↔ k2 = k ∨ k2 ∈ mapKeys m := by
  induction m with
  | nil => simp [mapSet, mapKeys]
  | cons e m ih =>
    obtain ⟨k1, v1⟩ := e
    by_cases h1 : k1 = k
    · subst h1
      simp [mapSet, mapKeys]
    · have ih2 : k2 ∈ List.map Prod.fst (mapSet m k v) ↔ k2 = k ∨ k2 ∈ List.map Prod.fst m := ih
      simp only [mapSet, h1, if_false, mapKeys, List.map_cons, List.mem_cons, ih2]
      tauto

theorem nodup_mapKeys_mapSet {V : Type} (m : List (String × V)) (k : String) (v : V)
    (h : (mapKeys m).Nodup) : (mapKeys (mapSet m k v)).Nodup := by
  induction m with
  | nil => simp [mapSet, mapKeys]
  | cons e m ih =>
    obtain ⟨k1, v1⟩ := e
    have hn : k1 ∉ mapKeys m ∧ (mapKeys m).Nodup := by
      simpa [mapKeys] using h
    by_cases h1 : k1 = k
    · subst h1
      simpa [mapSet, mapKeys] using h
    · have hk : k1 ∉ mapKeys (mapSet m k v) := by
        rw [mem_mapKeys_mapSet]
        rintro (h2 | h2)
        · exact h1 h2
        · exact hn.1 h2
      have ih2 := ih hn.2
      simp only [mapSet, h1, if_false]
      exact List.nodup_cons.mpr ⟨hk, ih2⟩

theorem mapGet_eq_none_iff {V : Type} (m : List (String × V)) (k : String) :
    mapGet m k = none ↔ k ∉ mapKeys m := by
  induction m with
  | nil => simp [mapGet, mapKeys]
  | cons e m ih =>
    obtain ⟨k1, v1⟩ := e
    have ih2 : mapGet m k = none ↔ k ∉ List.map Prod.fst m := ih
    by_cases h1 : k1 = k
    · subst h1
      simp [mapGet, mapKeys]
    · have h3 : ¬ k = k1 := fun h => h1 h.symm
      simp only [mapGet, h1, if_false, mapKeys, List.map_cons, List.mem_cons, ih2]
      tauto

theorem mapGet_isSome_iff {V : Type} (m : List (String × V)) (k : String) :
    (mapGet m k).isSome = true ↔ k ∈ mapKeys m := by
  have h := mapGet_eq_none_iff m k
  cases hg : mapGet m k with
  | none => simpa [hg] using h
  | some v =>
    rw [hg] at h
    simp only [Option.isSome_some, true_iff]
    by_contra hc
    exact absurd (h.mpr hc) (by simp)

theorem mem_iff_mapGet {V : Type} (m : List (String × V)) (k : String) (v : V)
    (h : (mapKeys m).Nodup) : (k, v) ∈ m ↔ mapGet m k = some v := by
  induction m with
  | nil => simp [mapGet]
  | cons e m ih =>
    obtain ⟨k1, v1⟩ := e
    have hn : k1 ∉ mapKeys m ∧ (mapKeys m).Nodup := by
      simpa [mapKeys] using h
    by_cases h1 : k1 = k
    · subst h1
      have hnot : (k1, v) ∉ m := fun hm => hn.1 (List.mem_map_of_mem Prod.fst hm)
      simp only [mapGet, if_true, List.mem_cons, Prod.mk.injEq, true_and, Option.some.injEq]
      constructor
      · rintro (h2 | h2)
        · exact h2.symm
        · exact absurd h2 hnot
      · intro h2
        exact Or.inl h2.symm
    · have h3 : ¬ k = k1 := fun h => h1 h.symm
      simp only [mapGet, h1, if_false, List.mem_cons, Prod.mk.injEq, h3, false_and, false_or]
      exact ih hn.2

/-! ## Loops that append -/

theorem foldl_append_map {α β : Type} (f : α → β) (l : List α) (init : List β) :
    l.foldl (fun acc x => acc ++ [f x]) init = init ++ l.map f := by
  induction l generalizing init with
  | nil => simp
  | cons x l ih => simp [ih]

theorem foldl_append_filter {α : Type} (p : α → Bool) (l : List α) (init : List α) :
    l.foldl (fun acc x => if p x then acc else acc ++ [x]) init
      = init ++ l.filter (fun x => !p x) := by
  induction l generalizing init with
  | nil => simp
  | cons x l ih =>
    by_cases hp : p x = true
    · simp [ih, hp]
    · simp [ih, hp]

theorem foldl_invariant {α β : Type} (I : β → Prop) (f : β → α → β)
    (hf : ∀ acc x, I acc → I (f acc x)) (l : List α) (init : β) (h0 : I init) :
    I (l.foldl f init) := by
  induction l generalizing init with
  | nil => simpa using h0
  | cons x l ih => exact ih (f init x) (hf init x h0)

/-! ## GetClearServiceAccountpolicy: lemmas -/

theorem clearMembers_eq_filter (sa : List (String × Bool)) (members : List String) :
    clearMembers sa members = members.filter (fun m => !(mapGet sa m).isSome) := by
  unfold clearMembers
  rw [foldl_append_filter (fun m => (mapGet sa m).isSome)]
  simp

theorem bindings_GetClearServiceAccountpolicy (p : Policy) (req : ApplyIamRequest) :
    (GetClearServiceAccountpolicy p req).Bindings
      = p.Bindings.map
          (fun b => Binding.mk b.Role (clearMembers (serviceAccounts req) b.Members)) := by
  unfold GetClearServiceAccountpolicy
  simp only
  rw [foldl_append_map]
  simp

theorem mapGet_serviceAccounts_isSome (req : ApplyIamRequest) (m : String) :
    (mapGet (serviceAccounts req) m).isSome = true ↔
      (m = "serviceAccount:" ++ req.Cluster ++ "-admin@" ++ req.Project ++ ".iam.gserviceaccount.com"
        ∨ m = "serviceAccount:" ++ req.Cluster ++ "-user@" ++ req.Project ++ ".iam.gserviceaccount.com"
        ∨ m = "serviceAccount:" ++ req.Cluster ++ "-vm@" ++ req.Project ++ ".iam.gserviceaccount.com") := by
  rw [mapGet_isSome_iff]
  unfold serviceAccounts
  simp only [mem_mapKeys_mapSet]
  simp only [mapKeys, List.map_nil, List.not_mem_nil, or_false]
  tauto

/-! ## The role map: lemmas -/

theorem mapVal_mapSet_nil (pm : List (String × List (String × Bool))) (k r m : String)
    (h : mapGet pm k = none) : mapVal (mapSet pm k []) r m = mapVal pm r m := by
  unfold mapVal
  rw [mapGet_mapSet]
  by_cases hk : k = r
  · subst hk
    simp [h, mapGet]
  · simp [hk]

theorem mapVal_mapSetInner (pm : List (String × List (String × Bool))) (k a r m : String)
    (v : Bool) :
    mapVal (mapSetInner pm k a v) r m
      = if r = k ∧ m = a then some v else mapVal pm r m := by
  unfold mapVal mapSetInner
  rw [mapGet_mapSet]
  by_cases hk : k = r
  · subst hk
    simp only [if_true, Option.some_bind, mapGet_mapSet, true_and]
    by_cases ha : a = m
    · subst ha
      simp
    · have ha2 : ¬ m = a := fun h => ha h.symm
      simp only [ha, ha2, if_false]
      cases hg : mapGet pm k with
      | none => simp [mapGet]
      | some ms => simp
  · have hk2 : ¬ r = k := fun h => hk h.symm
    simp [hk, hk2]

theorem mem_mapKeys_mapSetInner (pm : List (String × List (String × Bool))) (k a r : String)
    (v : Bool) : r ∈ mapKeys (mapSetInner pm k a v) ↔ r = k ∨ r ∈ mapKeys pm := by
  unfold mapSetInner
  exact mem_mapKeys_mapSet pm k r _

theorem wfMap_nil : wfMap [] := by
  refine ⟨by simp [mapKeys], ?_⟩
  intro r ms h
  simp [mapGet] at h

theorem wfMap_mapSet (pm : List (String × List (String × Bool))) (k : String)
    (ms : List (String × Bool)) (h : wfMap pm) (hms : (mapKeys ms).Nodup) :
    wfMap (mapSet pm k ms) := by
  refine ⟨nodup_mapKeys_mapSet pm k ms h.1, ?_⟩
  intro r ms2 hg
  rw [mapGet_mapSet] at hg
  by_cases hk : k = r
  · simp only [hk, if_true, Option.some.injEq] at hg
    rw [← hg]
    exact hms
  · simp only [hk, if_false] at hg
    exact h.2 r ms2 hg

theorem wfMap_mapSetInner (pm : List (String × List (String × Bool))) (k a : String) (v : Bool)
    (h : wfMap pm) : wfMap (mapSetInner pm k a v) := by
  unfold mapSetInner
  apply wfMap_mapSet pm k _ h
  apply nodup_mapKeys_mapSet
  cases hg : mapGet pm k with
  | none => simp [mapKeys]
  | some ms => simpa using h.2 k ms hg

/-! ## GetUpdatedPolicy: the template loop -/

theorem mapVal_applyRole (req : ApplyIamRequest) (a : String)
    (pm : List (String × List (String × Bool))) (role r m : String) :
    mapVal (applyRole req a pm role) r m
      = if r = role ∧ m = a then some (decide (req.Action = "add")) else mapVal pm r m := by
  have hpre : mapVal (if (mapGet pm role).isSome then pm else mapSet pm role []) r m
      = mapVal pm r m := by
    cases hg : mapGet pm role with
    | none => simpa using mapVal_mapSet_nil pm role r m hg
    | some ms => simp
  unfold applyRole
  by_cases hact : req.Action = "add"
  · simp only [hact, if_true, mapVal_mapSetInner, hpre, decide_True]
  · simp only [hact, if_false, mapVal_mapSetInner, hpre, decide_False]

theorem mem_mapKeys_applyRole (req : ApplyIamRequest) (a : String)
    (pm : List (String × List (String × Bool))) (role r : String) :
    r ∈ mapKeys (applyRole req a pm role) ↔ r = role ∨ r ∈ mapKeys pm := by
  have hpre : r ∈ mapKeys (if (mapGet pm role).isSome then pm else mapSet pm role [])
      ↔ r = role ∨ r ∈ mapKeys pm := by
    cases hg : mapGet pm role with
    | none => simpa using mem_mapKeys_mapSet pm role r []
    | some ms =>
      have hin : role ∈ mapKeys pm := (mapGet_isSome_iff pm role).mp (by simp [hg])
      simp only [Option.isSome_some, if_true]
      constructor
      · exact fun h => Or.inr h
      · rintro (h | h)
        · exact h ▸ hin
        · exact h
  unfold applyRole
  by_cases hact : req.Action = "add"
  · simp only [hact, if_true, mem_mapKeys_mapSetInner, hpre]
    tauto
  · simp only [hact, if_false, mem_mapKeys_mapSetInner, hpre]
    tauto

theorem wfMap_applyRole (req : ApplyIamRequest) (a : String)
    (pm : List (String × List (String × Bool))) (role : String) (h : wfMap pm) :
    wfMap (applyRole req a pm role) := by
  have hpre : wfMap (if (mapGet pm role).isSome then pm else mapSet pm role []) := by
    cases hg : mapGet pm role with
    | none => simpa using wfMap_mapSet pm role [] h (by simp [mapKeys])
    | some ms => simpa using h
  unfold applyRole
  by_cases hact : req.Action = "add"
  · simpa only [hact, if_true] using wfMap_mapSetInner _ role a true hpre
  · simpa only [hact, if_false] using wfMap_mapSetInner _ role a false hpre

theorem mapVal_foldl_applyRole (req : ApplyIamRequest) (a : String) (roles : List String)
    (pm : List (String × List (String × Bool))) (r m : String) :
    mapVal (roles.foldl (applyRole req a) pm) r m
      = if r ∈ roles ∧ m = a then some (decide (req.Action = "add")) else mapVal pm r m := by
  induction roles generalizing pm with
  | nil => simp
  | cons role roles ih =>
    rw [List.foldl_cons, ih, mapVal_applyRole]
    by_cases h1 : r ∈ roles ∧ m = a
    · have h2 : r ∈ role :: roles ∧ m = a := ⟨List.mem_cons_of_mem _ h1.1, h1.2⟩
      rw [if_pos h1, if_pos h2]
    · by_cases h3 : r = role ∧ m = a
      · have h2 : r ∈ role :: roles ∧ m = a := ⟨h3.1 ▸ List.mem_cons_self _ _, h3.2⟩
        rw [if_neg h1, if_pos h3, if_pos h2]
      · have h2 : ¬ (r ∈ role :: roles ∧ m = a) := by
          rintro ⟨hm, ha⟩
          rcases List.mem_cons.mp hm with hm | hm
          · exact h3 ⟨hm, ha⟩
          · exact h1 ⟨hm, ha⟩
        rw [if_neg h1, if_neg h3, if_neg h2]

theorem mem_mapKeys_foldl_applyRole (req : ApplyIamRequest) (a : String) (roles : List String)
    (pm : List (String × List (String × Bool))) (r : String) :
    r ∈ mapKeys (roles.foldl (applyRole req a) pm) ↔ r ∈ roles ∨ r ∈ mapKeys pm := by
  induction roles generalizing pm with
  | nil => simp
  | cons role roles ih =>
    rw [List.foldl_cons, ih, mem_mapKeys_applyRole, List.mem_cons]
    tauto

theorem mapVal_foldl_members (req : ApplyIamRequest) (roles members : List String)
    (pm : List (String × List (String × Bool))) (r m : String) :
    mapVal
        (members.foldl
          (fun policyMap member => roles.foldl (applyRole req (actualMember req member)) policyMap)
          pm) r m
      = if r ∈ roles ∧ ∃ x ∈ members, actualMember req x = m then
          some (decide (req.Action = "add"))
        else mapVal pm r m := by
  induction members generalizing pm with
  | nil => simp
  | cons x members ih =>
    rw [List.foldl_cons, ih, mapVal_foldl_applyRole]
    by_cases h1 : r ∈ roles ∧ ∃ y ∈ members, actualMember req y = m
    · have h2 : r ∈ roles ∧ ∃ y ∈ x :: members, actualMember req y = m := by
        obtain ⟨hr, y, hy, hy2⟩ := h1
        exact ⟨hr, y, List.mem_cons_of_mem _ hy, hy2⟩
      rw [if_pos h1, if_pos h2]
    · by_cases h3 : r ∈ roles ∧ m = actualMember req x
      · have h2 : r ∈ roles ∧ ∃ y ∈ x :: members, actualMember req y = m :=
          ⟨h3.1, x, List.mem_cons_self _ _, h3.2.symm⟩
        rw [if_neg h1, if_pos h3, if_pos h2]
      · have h2 : ¬ (r ∈ roles ∧ ∃ y ∈ x :: members, actualMember req y = m) := by
          rintro ⟨hr, y, hy, hy2⟩
          rcases List.mem_cons.mp hy with hy | hy
          · exact h3 ⟨hr, by rw [← hy2, hy]⟩
          · exact h1 ⟨hr, y, hy, hy2⟩
        rw [if_neg h1, if_neg h3, if_neg h2]

theorem mem_mapKeys_foldl_members (req : ApplyIamRequest) (roles members : List String)
    (pm : List (String × List (String × Bool))) (r : String) :
    r ∈ mapKeys
        (members.foldl
          (fun policyMap member => roles.foldl (applyRole req (actualMember req member)) policyMap)
          pm)
      ↔ (members ≠ [] ∧ r ∈ roles) ∨ r ∈ mapKeys pm := by
  induction members generalizing pm with
  | nil => simp
  | cons x members ih =>
    rw [List.foldl_cons, ih, mem_mapKeys_foldl_applyRole]
    have hne : x :: members ≠ [] := List.cons_ne_nil _ _
    constructor
    · rintro (h | h | h)
      · exact Or.inl ⟨hne, h.2⟩
      · exact Or.inl ⟨hne, h⟩
      · exact Or.inr h
    · rintro (h | h)
      · exact Or.inr (Or.inl h.2)
      · exact Or.inr (Or.inr h)

theorem mapVal_applyTemplate (iamConf : IamConf) (req : ApplyIamRequest)
    (pm : List (String × List (String × Bool))) (r m : String) :
    mapVal (applyTemplate iamConf req pm) r m
      = if templateMember iamConf req r m then some (decide (req.Action = "add"))
        else mapVal pm r m := by
  obtain ⟨tbs⟩ := iamConf
  unfold applyTemplate templateMember
  simp only
  induction tbs generalizing pm with
  | nil => simp
  | cons tb tbs ih =>
    rw [List.foldl_cons, ih, mapVal_foldl_members]
    by_cases h1 : ∃ t ∈ tbs, r ∈ t.Roles ∧ ∃ x ∈ t.Members, actualMember req x = m
    · have h2 : ∃ t ∈ tb :: tbs, r ∈ t.Roles ∧ ∃ x ∈ t.Members, actualMember req x = m := by
        obtain ⟨t, ht, h⟩ := h1
        exact ⟨t, List.mem_cons_of_mem _ ht, h⟩
      rw [if_pos h1, if_pos h2]
    · by_cases h3 : r ∈ tb.Roles ∧ ∃ x ∈ tb.Members, actualMember req x = m
      · have h2 : ∃ t ∈ tb :: tbs, r ∈ t.Roles ∧ ∃ x ∈ t.Members, actualMember req x = m :=
          ⟨tb, List.mem_cons_self _ _, h3⟩
        rw [if_neg h1, if_pos h3, if_pos h2]
      · have h2 : ¬ ∃ t ∈ tb :: tbs, r ∈ t.Roles ∧ ∃ x ∈ t.Members, actualMember req x = m := by
          rintro ⟨t, ht, h⟩
          rcases List.mem_cons.mp ht with ht | ht
          · exact h3 (ht ▸ h)
          · exact h1 ⟨t, ht, h⟩
        rw [if_neg h1, if_neg h3, if_neg h2]

theorem mem_mapKeys_applyTemplate (iamConf : IamConf) (req : ApplyIamRequest)
    (pm : List (String × List (String × Bool))) (r : String) :
    r ∈ mapKeys (applyTemplate iamConf req pm) ↔ templateRole iamConf r ∨ r ∈ mapKeys pm := by
  obtain ⟨tbs⟩ := iamConf
  unfold applyTemplate templateRole
  simp only
  induction tbs generalizing pm with
  | nil => simp
  | cons tb tbs ih =>
    rw [List.foldl_cons, ih, mem_mapKeys_foldl_members]
    constructor
    · rintro (⟨t, ht, h⟩ | h | h)
      · exact Or.inl ⟨t, List.mem_cons_of_mem _ ht, h⟩
      · exact Or.inl ⟨tb, List.mem_cons_self _ _, h⟩
      · exact Or.inr h
    · rintro (⟨t, ht, h⟩ | h)
      · rcases List.mem_cons.mp ht with ht | ht
        · exact Or.inr (Or.inl (ht ▸ h))
        · exact Or.inl ⟨t, ht, h⟩
      · exact Or.inr (Or.inr h)

theorem wfMap_applyTemplate (iamConf : IamConf) (req : ApplyIamRequest)
    (pm : List (String × List (String × Bool))) (h : wfMap pm) :
    wfMap (applyTemplate iamConf req pm) := by
  unfold applyTemplate
  apply foldl_invariant wfMap _ _ _ _ h
  intro acc tb hacc
  apply foldl_invariant wfMap _ _ _ _ hacc
  intro acc2 x hacc2
  apply foldl_invariant wfMap _ _ _ _ hacc2
  intro acc3 role hacc3
  exact wfMap_applyRole req _ acc3 role hacc3

/-! ## GetUpdatedPolicy: the first loop -/

theorem mapVal_mapSet_nil_eq (pm : List (String × List (String × Bool))) (k r m : String) :
    mapVal (mapSet pm k []) r m = if r = k then none else mapVal pm r m := by
  unfold mapVal
  rw [mapGet_mapSet]
  by_cases hk : k = r
  · subst hk
    simp [mapGet]
  · have hk2 : ¬ r = k := fun h => hk h.symm
    simp [hk, hk2]

theorem mapVal_foldl_setTrue (role : String) (members : List String)
    (pm : List (String × List (String × Bool))) (r m : String) :
    mapVal (members.foldl (fun policyMap member => mapSetInner policyMap role member true) pm) r m
      = if r = role ∧ m ∈ members then some true else mapVal pm r m := by
  induction members generalizing pm with
  | nil => simp
  | cons x members ih =>
    rw [List.foldl_cons, ih, mapVal_mapSetInner]
    by_cases h1 : r = role ∧ m ∈ members
    · have h2 : r = role ∧ m ∈ x :: members := ⟨h1.1, List.mem_cons_of_mem _ h1.2⟩
      rw [if_pos h1, if_pos h2]
    · by_cases h3 : r = role ∧ m = x
      · have h2 : r = role ∧ m ∈ x :: members := ⟨h3.1, h3.2 ▸ List.mem_cons_self _ _⟩
        rw [if_neg h1, if_pos h3, if_pos h2]
      · have h2 : ¬ (r = role ∧ m ∈ x :: members) := by
          rintro ⟨hr, hm⟩
          rcases List.mem_cons.mp hm with hm | hm
          · exact h3 ⟨hr, hm⟩
          · exact h1 ⟨hr, hm⟩
        rw [if_neg h1, if_neg h3, if_neg h2]

theorem mapVal_buildStep (b : Binding) (pm : List (String × List (String × Bool)))
    (r m : String) :
    mapVal
        (b.Members.foldl (fun policyMap member => mapSetInner policyMap b.Role member true)
          (mapSet pm b.Role [])) r m
      = if r = b.Role then (if m ∈ b.Members then some true else none) else mapVal pm r m := by
  rw [mapVal_foldl_setTrue, mapVal_mapSet_nil_eq]
  by_cases hr : r = b.Role
  · by_cases hm : m ∈ b.Members <;> simp [hr, hm]
  · simp [hr]

theorem mem_mapKeys_buildStep (b : Binding) (pm : List (String × List (String × Bool)))
    (r : String) :
    r ∈ mapKeys
        (b.Members.foldl (fun policyMap member => mapSetInner policyMap b.Role member true)
          (mapSet pm b.Role []))
      ↔ r = b.Role ∨ r ∈ mapKeys pm := by
  generalize hs : mapSet pm b.Role [] = start
  have hstart : r ∈ mapKeys start ↔ r = b.Role ∨ r ∈ mapKeys pm := by
    rw [← hs]
    exact mem_mapKeys_mapSet pm b.Role r []
  have hgen : ∀ (members : List String) (acc : List (String × List (String × Bool))),
      r ∈ mapKeys
          (members.foldl (fun policyMap member => mapSetInner policyMap b.Role member true) acc)
        ↔ (members ≠ [] ∧ r = b.Role) ∨ r ∈ mapKeys acc := by
    intro members
    induction members with
    | nil => simp
    | cons x members ih =>
      intro acc
      rw [List.foldl_cons, ih, mem_mapKeys_mapSetInner]
      have hne : x :: members ≠ [] := List.cons_ne_nil _ _
      tauto
  rw [hgen, hstart]
  tauto

theorem wfMap_buildStep (b : Binding) (pm : List (String × List (String × Bool)))
    (h : wfMap pm) :
    wfMap
      (b.Members.foldl (fun policyMap member => mapSetInner policyMap b.Role member true)
        (mapSet pm b.Role [])) := by
  apply foldl_invariant wfMap _ _ _ _ (wfMap_mapSet pm b.Role [] h (by simp [mapKeys]))
  intro acc x hacc
  exact wfMap_mapSetInner acc b.Role x true hacc

theorem wfMap_buildPolicyMap (p : Policy) : wfMap (buildPolicyMap p) := by
  unfold buildPolicyMap
  apply foldl_invariant wfMap _ _ _ _ wfMap_nil
  intro acc b hacc
  exact wfMap_buildStep b acc hacc

theorem mem_mapKeys_buildPolicyMap (p : Policy) (r : String) :
    r ∈ mapKeys (buildPolicyMap p) ↔ p.hasRole r := by
  have hgen : ∀ (bs : List Binding) (acc : List (String × List (String × Bool))),
      r ∈ mapKeys
          (bs.foldl
            (fun policyMap binding =>
              binding.Members.foldl
                (fun policyMap member => mapSetInner policyMap binding.Role member true)
                (mapSet policyMap binding.Role []))
            acc)
        ↔ (∃ b ∈ bs, b.Role = r) ∨ r ∈ mapKeys acc := by
    intro bs
    induction bs with
    | nil => simp
    | cons b bs ih =>
      intro acc
      rw [List.foldl_cons, ih, mem_mapKeys_buildStep]
      constructor
      · rintro (⟨b2, hb2, h⟩ | h | h)
        · exact Or.inl ⟨b2, List.mem_cons_of_mem _ hb2, h⟩
        · exact Or.inl ⟨b, List.mem_cons_self _ _, h.symm⟩
        · exact Or.inr h
      · rintro (⟨b2, hb2, h⟩ | h)
        · rcases List.mem_cons.mp hb2 with hb2 | hb2
          · exact Or.inr (Or.inl (by rw [← h, hb2]))
          · exact Or.inl ⟨b2, hb2, h⟩
        · exact Or.inr (Or.inr h)
  unfold buildPolicyMap Policy.hasRole
  rw [hgen]
  simp [mapKeys]

theorem mapVal_buildPolicyMap (p : Policy) (hp : p.uniqueRoles) (r m : String) :
    mapVal (buildPolicyMap p) r m = some true ↔ p.hasMember r m := by
  have hgen : ∀ (bs : List Binding) (acc : List (String × List (String × Bool))),
      (bs.map Binding.Role).Nodup →
      (mapVal
          (bs.foldl
            (fun policyMap binding =>
              binding.Members.foldl
                (fun policyMap member => mapSetInner policyMap binding.Role member true)
                (mapSet policyMap binding.Role []))
            acc) r m = some true
        ↔ (∃ b ∈ bs, b.Role = r ∧ m ∈ b.Members)
            ∨ (r ∉ bs.map Binding.Role ∧ mapVal acc r m = some true)) := by
    intro bs
    induction bs with
    | nil => simp
    | cons b bs ih =>
      intro acc hnd
      have hnd2 : b.Role ∉ bs.map Binding.Role ∧ (bs.map Binding.Role).Nodup := by
        simpa using hnd
      rw [List.foldl_cons, ih _ hnd2.2, mapVal_buildStep]
      constructor
      · rintro (⟨b2, hb2, h⟩ | ⟨hr, h⟩)
        · exact Or.inl ⟨b2, List.mem_cons_of_mem _ hb2, h⟩
        · by_cases hrb : r = b.Role
          · rw [if_pos hrb] at h
            by_cases hm : m ∈ b.Members
            · exact Or.inl ⟨b, List.mem_cons_self _ _, hrb.symm, hm⟩
            · rw [if_neg hm] at h
              exact absurd h (by simp)
          · rw [if_neg hrb] at h
            refine Or.inr ⟨?_, h⟩
            intro hin
            rcases List.mem_cons.mp hin with hin | hin
            · exact hrb hin
            · exact hr hin
      · rintro (⟨b2, hb2, h⟩ | ⟨hr, h⟩)
        · rcases List.mem_cons.mp hb2 with hb2 | hb2
          · subst hb2
            refine Or.inr ⟨?_, ?_⟩
            · rw [← h.1]
              exact hnd2.1
            · rw [if_pos h.1.symm, if_pos h.2]
          · exact Or.inl ⟨b2, hb2, h⟩
        · have hrb : ¬ r = b.Role := fun hc => hr (hc ▸ List.mem_cons_self _ _)
          refine Or.inr ⟨fun hin => hr (List.mem_cons_of_mem _ hin), ?_⟩
          rw [if_neg hrb]
          exact h
  unfold buildPolicyMap Policy.hasMember
  rw [hgen p.Bindings [] hp]
  simp [mapVal, mapGet]

/-! ## GetUpdatedPolicy: the emission loop -/

theorem emitMembers_eq (memberSet : List (String × Bool)) :
    emitMembers memberSet = (memberSet.filter Prod.snd).map Prod.fst := by
  have hgen : ∀ (l : List (String × Bool)) (init : List String),
      l.foldl (fun members e => if e.2 then members ++ [e.1] else members) init
        = init ++ (l.filter Prod.snd).map Prod.fst := by
    intro l
    induction l with
    | nil => simp
    | cons e l ih =>
      intro init
      by_cases he : e.2 = true
      · simp [ih, he]
      · simp [ih, he]
  unfold emitMembers
  rw [hgen]
  simp

theorem bindings_emitPolicy (pm : List (String × List (String × Bool))) :
    (emitPolicy pm).Bindings = pm.map (fun e => Binding.mk e.1 (emitMembers e.2)) := by
  unfold emitPolicy
  simp only
  rw [foldl_append_map]
  simp

theorem roles_emitPolicy (pm : List (String × List (String × Bool))) :
    (emitPolicy pm).Bindings.map Binding.Role = mapKeys pm := by
  rw [bindings_emitPolicy]
  simp [mapKeys, Function.comp_def]

theorem hasRole_emitPolicy (pm : List (String × List (String × Bool))) (r : String) :
    (emitPolicy pm).hasRole r ↔ r ∈ mapKeys pm := by
  rw [← roles_emitPolicy]
  unfold Policy.hasRole
  simp

theorem hasMember_emitPolicy (pm : List (String × List (String × Bool))) (h : wfMap pm)
    (r m : String) : (emitPolicy pm).hasMember r m ↔ mapVal pm r m = some true := by
  unfold Policy.hasMember
  rw [bindings_emitPolicy]
  constructor
  · rintro ⟨b, hb, hr, hm⟩
    obtain ⟨e, he, hbe⟩ := List.mem_map.mp hb
    obtain ⟨k, ms⟩ := e
    subst hbe
    simp only at hr hm
    subst hr
    have hget : mapGet pm k = some ms := (mem_iff_mapGet pm k ms h.1).mp he
    rw [emitMembers_eq] at hm
    obtain ⟨e2, he2, hfst⟩ := List.mem_map.mp hm
    obtain ⟨m2, flag⟩ := e2
    simp only at hfst
    subst hfst
    obtain ⟨hin, hflag⟩ := List.mem_filter.mp he2
    simp only at hflag
    subst hflag
    have hget2 : mapGet ms m2 = some true :=
      (mem_iff_mapGet ms m2 true (h.2 k ms hget)).mp hin
    simp [mapVal, hget, hget2]
  · intro hv
    unfold mapVal at hv
    cases hget : mapGet pm r with
    | none => simp [hget] at hv
    | some ms =>
      rw [hget] at hv
      simp only [Option.some_bind] at hv
      have hin : (r, ms) ∈ pm := (mem_iff_mapGet pm r ms h.1).mpr hget
      have hin2 : (m, true) ∈ ms := (mem_iff_mapGet ms m true (h.2 r ms hget)).mpr hv
      refine ⟨Binding.mk r (emitMembers ms), List.mem_map.mpr ⟨(r, ms), hin, rfl⟩, rfl, ?_⟩
      rw [emitMembers_eq]
      exact List.mem_map.mpr ⟨(m, true), List.mem_filter.mpr ⟨hin2, rfl⟩, rfl⟩

/-! ## GetUpdatedPolicy: characterisation of the output -/

theorem wfMap_policyMap (p : Policy) (iamConf : IamConf) (req : ApplyIamRequest) :
    wfMap (applyTemplate iamConf req (buildPolicyMap p)) :=
  wfMap_applyTemplate iamConf req _ (wfMap_buildPolicyMap p)

theorem hasMember_GetUpdatedPolicy (p : Policy) (iamConf : IamConf) (req : ApplyIamRequest)
    (r m : String) :
    (GetUpdatedPolicy p iamConf req).hasMember r m ↔
      (templateMember iamConf req r m ∧ req.Action = "add")
        ∨ (¬ templateMember iamConf req r m ∧ mapVal (buildPolicyMap p) r m = some true) := by
  unfold GetUpdatedPolicy
  rw [hasMember_emitPolicy _ (wfMap_policyMap p iamConf req), mapVal_applyTemplate]
  by_cases ht : templateMember iamConf req r m
  · rw [if_pos ht]
    simp [ht]
  · rw [if_neg ht]
    simp [ht]

theorem hasRole_GetUpdatedPolicy (p : Policy) (iamConf : IamConf) (req : ApplyIamRequest)
    (r : String) :
    (GetUpdatedPolicy p iamConf req).hasRole r ↔ p.hasRole r ∨ templateRole iamConf r := by
  unfold GetUpdatedPolicy
  rw [hasRole_emitPolicy, mem_mapKeys_applyTemplate, mem_mapKeys_buildPolicyMap]
  tauto

theorem uniqueRoles_GetUpdatedPolicy (p : Policy) (iamConf : IamConf) (req : ApplyIamRequest) :
    (GetUpdatedPolicy p iamConf req).uniqueRoles := by
  unfold GetUpdatedPolicy Policy.uniqueRoles
  rw [roles_emitPolicy]
  exact (wfMap_policyMap p iamConf req).1

theorem hasMember_GetUpdatedPolicy_unique (p : Policy) (iamConf : IamConf)
    (req : ApplyIamRequest) (hp : p.uniqueRoles) (r m : String) :
    (GetUpdatedPolicy p iamConf req).hasMember r m ↔
      (templateMember iamConf req r m ∧ req.Action = "add")
        ∨ (¬ templateMember iamConf req r m ∧ p.hasMember r m) := by
  rw [hasMember_GetUpdatedPolicy, mapVal_buildPolicyMap p hp]

theorem actualMember_withAction (req : ApplyIamRequest) (action x : String) :
    actualMember (withAction req action) x = actualMember req x := rfl

theorem templateMember_withAction (iamConf : IamConf) (req : ApplyIamRequest)
    (action r m : String) :
    templateMember iamConf (withAction req action) r m ↔ templateMember iamConf req r m :=
  Iff.rfl

theorem templateRole_of_templateMember (iamConf : IamConf) (req : ApplyIamRequest)
    (r m : String) (h : templateMember iamConf req r m) : templateRole iamConf r := by
  obtain ⟨tb, htb, hr, x, hx, _⟩ := h
  exact ⟨tb, htb, List.ne_nil_of_mem hx, hr⟩

theorem actualMember_of_not_placeholder (req : ApplyIamRequest) (m : String)
    (h : m ∉ placeholderTokens) : actualMember req m = m := by
  have h4 : ¬ "set-kubeflow-admin-service-account" = m
      ∧ ¬ "set-kubeflow-user-service-account" = m
      ∧ ¬ "set-kubeflow-vm-service-account" = m
      ∧ ¬ "set-kubeflow-iap-account" = m := by
    refine ⟨?_, ?_, ?_, ?_⟩ <;>
    · intro hc
      apply h
      rw [← hc]
      simp [placeholderTokens]
  have hget : mapGet (saMapping req) m = none := by
    unfold saMapping
    simp only [mapGet_mapSet, h4.1, h4.2.1, h4.2.2.1, h4.2.2.2, if_false]
    rfl
  unfold actualMember
  rw [hget]

/-! ## ApplyIamPolicy: the returned error -/

theorem err_ApplyIamPolicy_of_started {σ : Type} (env : Env σ) (s : σ) (req : ApplyIamRequest)
    (iamConf : IamConf) (hload : env.loadConfig = Except.ok iamConf)
    (hclient : env.newClient = none) : (ApplyIamPolicy env s req).err = none := by
  unfold ApplyIamPolicy
  rw [hload]
  simp only [hclient]

/-! ## Claims -/

/-- C1 (defect of the code): when the template loads, the client is created and the fetch
fails on all five attempts, the error of the fifth fetch is held by the variable `err` of the
loop body, while ApplyIamPolicy returns nil: the `err` tested after the loop is the variable
of the function scope, which the loop never assigns. -/
theorem ApplyIamPolicy_fetch_fails_five_times_returns_nil :
    (ApplyIamPolicy failingEnv 0 scenarioARequest).bodyErr = some "e5"
      ∧ (ApplyIamPolicy failingEnv 0 scenarioARequest).err = none
      ∧ (ApplyIamPolicy failingEnv 0 scenarioARequest).trace
          = [Event.lock "p1",
              Event.getIamPolicy "p1", Event.sleep 3, Event.getIamPolicy "p1", Event.sleep 3,
              Event.getIamPolicy "p1", Event.sleep 3, Event.getIamPolicy "p1", Event.sleep 3,
              Event.getIamPolicy "p1", Event.sleep 3,
              Event.unlock "p1"] := by
  decide

/-- C2 as stated fails: in Scenario A the call succeeds in one attempt and pushes two
policies; the last one is merged from the fetched policy, not from the scrubbed one, and
holds the admin service account in roles/viewer, a role the template does not give it, next
to its template role roles/editor. -/
theorem ApplyIamPolicy_scenarioA_last_push_keeps_stale_membership :
    (ApplyIamPolicy scenarioAEnv () scenarioARequest).err = none
      ∧ pushes (ApplyIamPolicy scenarioAEnv () scenarioARequest).trace
          = [Policy.mk [Binding.mk "roles/viewer" ["user:alice@example.com"]],
             Policy.mk
               [Binding.mk "roles/viewer"
                  ["serviceAccount:c1-admin@p1.iam.gserviceaccount.com", "user:alice@example.com"],
                Binding.mk "roles/editor"
                  ["serviceAccount:c1-admin@p1.iam.gserviceaccount.com"]]]
      ∧ (GetUpdatedPolicy scenarioAPolicy scenarioATemplate scenarioARequest).hasMember
          "roles/viewer" "serviceAccount:c1-admin@p1.iam.gserviceaccount.com" := by
  decide

/-- C3 as stated fails: alice views in the policy and the template names her for the same
role; add keeps her, remove deletes her, so the member set of roles/viewer is not restored. -/
theorem GetUpdatedPolicy_add_then_remove_not_inverse :
    alicePolicy.uniqueRoles
      ∧ alicePolicy.hasMember "roles/viewer" "user:alice@example.com"
      ∧ ¬ (GetUpdatedPolicy
            (GetUpdatedPolicy alicePolicy aliceTemplate (withAction scenarioARequest "add"))
            aliceTemplate (withAction scenarioARequest "remove")).hasMember
          "roles/viewer" "user:alice@example.com" := by
  decide

/-- C3 amended: for a policy with at most one binding per role in which no resolved template
principal is already a member of a role the template gives it, add followed by remove of the
same request restores the member set of every role, and every role of the intermediate policy
(thus every role the template created) is still a role of the result. -/
theorem GetUpdatedPolicy_add_then_remove_restores (p : Policy) (iamConf : IamConf)
    (req : ApplyIamRequest) (hp : p.uniqueRoles)
    (hfresh : ∀ tb ∈ iamConf.IamBindings, ∀ x ∈ tb.Members, ∀ r ∈ tb.Roles,
      ¬ p.hasMember r (actualMember req x)) :
    (∀ r m,
        (GetUpdatedPolicy (GetUpdatedPolicy p iamConf (withAction req "add")) iamConf
            (withAction req "remove")).hasMember r m ↔ p.hasMember r m)
      ∧ (∀ r,
        (GetUpdatedPolicy (GetUpdatedPolicy p iamConf (withAction req "add")) iamConf
            (withAction req "remove")).hasRole r
          ↔ (GetUpdatedPolicy p iamConf (withAction req "add")).hasRole r) := by
  have hq := uniqueRoles_GetUpdatedPolicy p iamConf (withAction req "add")
  have hdisj : ∀ r m, templateMember iamConf req r m → ¬ p.hasMember r m := by
    rintro r m ⟨tb, htb, hr, x, hx, hxm⟩
    rw [← hxm]
    exact hfresh tb htb x hx r hr
  have hrem : ¬ (withAction req "remove").Action = "add" := by
    simp [withAction]
  constructor
  · intro r m
    rw [hasMember_GetUpdatedPolicy_unique _ _ _ hq, hasMember_GetUpdatedPolicy_unique _ _ _ hp,
      templateMember_withAction, templateMember_withAction]
    have := hdisj r m
    tauto
  · intro r
    rw [hasRole_GetUpdatedPolicy, hasRole_GetUpdatedPolicy]
    tauto

/-- Witness of C3 amended: Scenario A, where the admin service account views and the template
makes it an editor. -/
theorem GetUpdatedPolicy_add_then_remove_restores_witness :
    scenarioAPolicy.uniqueRoles
      ∧ ((GetUpdatedPolicy
            (GetUpdatedPolicy scenarioAPolicy scenarioATemplate (withAction scenarioARequest "add"))
            scenarioATemplate (withAction scenarioARequest "remove")).hasMember
          "roles/editor" "serviceAccount:c1-admin@p1.iam.gserviceaccount.com"
        ↔ scenarioAPolicy.hasMember
            "roles/editor" "serviceAccount:c1-admin@p1.iam.gserviceaccount.com") :=
  ⟨by decide,
    (GetUpdatedPolicy_add_then_remove_restores scenarioAPolicy scenarioATemplate scenarioARequest
      (by decide) (by decide)).1 "roles/editor"
      "serviceAccount:c1-admin@p1.iam.gserviceaccount.com"⟩

/-- C4: with action add, applying GetUpdatedPolicy to its own output gives the same roles and,
for every role, the same members as applying it once. -/
theorem GetUpdatedPolicy_add_idempotent (p : Policy) (iamConf : IamConf)
    (req : ApplyIamRequest) (hact : req.Action = "add") :
    (∀ r,
        (GetUpdatedPolicy (GetUpdatedPolicy p iamConf req) iamConf req).hasRole r
          ↔ (GetUpdatedPolicy p iamConf req).hasRole r)
      ∧ (∀ r m,
        (GetUpdatedPolicy (GetUpdatedPolicy p iamConf req) iamConf req).hasMember r m
          ↔ (GetUpdatedPolicy p iamConf req).hasMember r m) := by
  have hq := uniqueRoles_GetUpdatedPolicy p iamConf req
  constructor
  · intro r
    rw [hasRole_GetUpdatedPolicy (GetUpdatedPolicy p iamConf req), hasRole_GetUpdatedPolicy p]
    tauto
  · intro r m
    rw [hasMember_GetUpdatedPolicy_unique _ _ _ hq, hasMember_GetUpdatedPolicy p]
    tauto

/-- Witness of C4: Scenario A. -/
theorem GetUpdatedPolicy_add_idempotent_witness :
    scenarioARequest.Action = "add"
      ∧ ((GetUpdatedPolicy (GetUpdatedPolicy scenarioAPolicy scenarioATemplate scenarioARequest)
            scenarioATemplate scenarioARequest).hasMember
          "roles/editor" "serviceAccount:c1-admin@p1.iam.gserviceaccount.com"
        ↔ (GetUpdatedPolicy scenarioAPolicy scenarioATemplate scenarioARequest).hasMember
            "roles/editor" "serviceAccount:c1-admin@p1.iam.gserviceaccount.com") :=
  ⟨by decide,
    (GetUpdatedPolicy_add_idempotent scenarioAPolicy scenarioATemplate scenarioARequest
      (by decide)).2 "roles/editor" "serviceAccount:c1-admin@p1.iam.gserviceaccount.com"⟩

/-- C5: for a current policy with at most one binding per role, the members of a role in the
output are the current members united with T(r) when the action is add and the current members
minus T(r) when it is remove; a principal outside T(r) is a member of r in the output exactly
when it was one in the current policy. -/
theorem GetUpdatedPolicy_members (p : Policy) (iamConf : IamConf) (req : ApplyIamRequest)
    (hp : p.uniqueRoles) :
    (req.Action = "add" → ∀ r m,
        ((GetUpdatedPolicy p iamConf req).hasMember r m
          ↔ p.hasMember r m ∨ templateMember iamConf req r m))
      ∧ (req.Action = "remove" → ∀ r m,
        ((GetUpdatedPolicy p iamConf req).hasMember r m
          ↔ p.hasMember r m ∧ ¬ templateMember iamConf req r m))
      ∧ (∀ r m, ¬ templateMember iamConf req r m →
        ((GetUpdatedPolicy p iamConf req).hasMember r m ↔ p.hasMember r m)) := by
  refine ⟨?_, ?_, ?_⟩
  · intro hact r m
    rw [hasMember_GetUpdatedPolicy_unique _ _ _ hp]
    tauto
  · intro hact r m
    have hne : ¬ req.Action = "add" := by
      rw [hact]
      decide
    rw [hasMember_GetUpdatedPolicy_unique _ _ _ hp]
    tauto
  · intro r m hnot
    rw [hasMember_GetUpdatedPolicy_unique _ _ _ hp]
    tauto

/-- Witness of C5: Scenario A, where the admin service account becomes an editor. -/
theorem GetUpdatedPolicy_members_witness :
    scenarioAPolicy.uniqueRoles
      ∧ ((GetUpdatedPolicy scenarioAPolicy scenarioATemplate scenarioARequest).hasMember
          "roles/editor" "serviceAccount:c1-admin@p1.iam.gserviceaccount.com"
        ↔ scenarioAPolicy.hasMember
            "roles/editor" "serviceAccount:c1-admin@p1.iam.gserviceaccount.com"
          ∨ templateMember scenarioATemplate scenarioARequest
            "roles/editor" "serviceAccount:c1-admin@p1.iam.gserviceaccount.com") :=
  ⟨by decide,
    (GetUpdatedPolicy_members scenarioAPolicy scenarioATemplate scenarioARequest
      (by decide)).1 (by decide) "roles/editor"
      "serviceAccount:c1-admin@p1.iam.gserviceaccount.com"⟩

/-- C6 as stated fails: the bare template member bob@example.com is none of the four
placeholders, its canonical form is user:bob@example.com, yet with action add the output holds
the bare address in roles/viewer and not the canonical form. -/
theorem GetUpdatedPolicy_literal_member_not_prepared :
    "bob@example.com" ∉ placeholderTokens
      ∧ PrepareAccount "bob@example.com" = "user:bob@example.com"
      ∧ (GetUpdatedPolicy (Policy.mk []) bobTemplate scenarioARequest).hasMember
          "roles/viewer" "bob@example.com"
      ∧ ¬ (GetUpdatedPolicy (Policy.mk []) bobTemplate scenarioARequest).hasMember
          "roles/viewer" (PrepareAccount "bob@example.com") := by
  decide

/-- C6 amended: a template member that is none of the four placeholders is written as it
stands, without PrepareAccount: it is its own actual member, and in every role of its template
binding it is a member of the output exactly when the action is add. -/
theorem GetUpdatedPolicy_literal_member_verbatim (p : Policy) (iamConf : IamConf)
    (req : ApplyIamRequest) (tb : IamBinding) (m r : String)
    (htb : tb ∈ iamConf.IamBindings) (hm : m ∈ tb.Members) (hr : r ∈ tb.Roles)
    (hlit : m ∉ placeholderTokens) :
    actualMember req m = m
      ∧ ((GetUpdatedPolicy p iamConf req).hasMember r m ↔ req.Action = "add") := by
  have hact := actualMember_of_not_placeholder req m hlit
  have ht : templateMember iamConf req r m := ⟨tb, htb, hr, m, hm, hact⟩
  refine ⟨hact, ?_⟩
  rw [hasMember_GetUpdatedPolicy]
  tauto

/-- Witness of C6 amended: the bare member bob@example.com of a template for roles/viewer. -/
theorem GetUpdatedPolicy_literal_member_verbatim_witness :
    "bob@example.com" ∉ placeholderTokens
      ∧ actualMember scenarioARequest "bob@example.com" = "bob@example.com"
      ∧ ((GetUpdatedPolicy scenarioAPolicy bobTemplate scenarioARequest).hasMember
          "roles/viewer" "bob@example.com" ↔ scenarioARequest.Action = "add") :=
  ⟨by decide,
    GetUpdatedPolicy_literal_member_verbatim scenarioAPolicy bobTemplate scenarioARequest
      (IamBinding.mk ["bob@example.com"] ["roles/viewer"]) "bob@example.com" "roles/viewer"
      (by decide) (by decide) (by decide) (by decide)⟩

/-- C7: GetClearServiceAccountpolicy returns as many bindings as it is given; its i-th binding
has the role of the i-th input binding and, as members, the input members in their order
without the admin, user and vm service accounts of the request; a binding left without members
is kept.  The input is a value and is not changed. -/
theorem GetClearServiceAccountpolicy_bindings (p : Policy) (req : ApplyIamRequest) :
    (GetClearServiceAccountpolicy p req).Bindings.length = p.Bindings.length
      ∧ ∀ i : Nat,
        (GetClearServiceAccountpolicy p req).Bindings[i]?
          = (p.Bindings[i]?).map
              (fun b =>
                Binding.mk b.Role
                  (b.Members.filter
                    (fun m =>
                      decide
                        (m ≠ "serviceAccount:" ++ req.Cluster ++ "-admin@" ++ req.Project
                              ++ ".iam.gserviceaccount.com"
                          ∧ m ≠ "serviceAccount:" ++ req.Cluster ++ "-user@" ++ req.Project
                              ++ ".iam.gserviceaccount.com"
                          ∧ m ≠ "serviceAccount:" ++ req.Cluster ++ "-vm@" ++ req.Project
                              ++ ".iam.gserviceaccount.com")))) := by
  have hfilter : ∀ members : List String,
      clearMembers (serviceAccounts req) members
        = members.filter
            (fun m =>
              decide
                (m ≠ "serviceAccount:" ++ req.Cluster ++ "-admin@" ++ req.Project
                      ++ ".iam.gserviceaccount.com"
                  ∧ m ≠ "serviceAccount:" ++ req.Cluster ++ "-user@" ++ req.Project
                      ++ ".iam.gserviceaccount.com"
                  ∧ m ≠ "serviceAccount:" ++ req.Cluster ++ "-vm@" ++ req.Project
                      ++ ".iam.gserviceaccount.com")) := by
    intro members
    rw [clearMembers_eq_filter]
    apply List.filter_congr
    intro m _
    have h := mapGet_serviceAccounts_isSome req m
    cases hs : (mapGet (serviceAccounts req) m).isSome with
    | true =>
      have h3 := h.mp hs
      simp only [Bool.not_true]
      symm
      rw [decide_eq_false_iff_not]
      rintro ⟨h1, h2, h4⟩
      rcases h3 with h3 | h3 | h3
      · exact h1 h3
      · exact h2 h3
      · exact h4 h3
    | false =>
      have hno : ∀ q : Prop, (q → (mapGet (serviceAccounts req) m).isSome = true) → ¬ q := by
        intro q hq hc
        have hc2 := hq hc
        rw [hs] at hc2
        exact Bool.false_ne_true hc2
      simp only [Bool.not_false]
      symm
      rw [decide_eq_true_iff]
      exact ⟨hno _ (fun hc => h.mpr (Or.inl hc)), hno _ (fun hc => h.mpr (Or.inr (Or.inl hc))),
        hno _ (fun hc => h.mpr (Or.inr (Or.inr hc)))⟩
  rw [bindings_GetClearServiceAccountpolicy]
  refine ⟨by simp, ?_⟩
  intro i
  rw [List.getElem?_map]
  cases p.Bindings[i]? with
  | none => rfl
  | some b => simp [hfilter]

/-- C8: in no role does the output of GetClearServiceAccountpolicy hold the admin, the user or
the vm service account of the request. -/
theorem GetClearServiceAccountpolicy_no_generated_principal (p : Policy)
    (req : ApplyIamRequest) (r : String) :
    ¬ (GetClearServiceAccountpolicy p req).hasMember r
          ("serviceAccount:" ++ req.Cluster ++ "-admin@" ++ req.Project
            ++ ".iam.gserviceaccount.com")
      ∧ ¬ (GetClearServiceAccountpolicy p req).hasMember r
          ("serviceAccount:" ++ req.Cluster ++ "-user@" ++ req.Project
            ++ ".iam.gserviceaccount.com")
      ∧ ¬ (GetClearServiceAccountpolicy p req).hasMember r
          ("serviceAccount:" ++ req.Cluster ++ "-vm@" ++ req.Project
            ++ ".iam.gserviceaccount.com") := by
  have hkey : ∀ m, (mapGet (serviceAccounts req) m).isSome = true →
      ¬ (GetClearServiceAccountpolicy p req).hasMember r m := by
    rintro m hs ⟨b, hb, _, hm⟩
    rw [bindings_GetClearServiceAccountpolicy] at hb
    obtain ⟨b0, _, hb0⟩ := List.mem_map.mp hb
    subst hb0
    simp only [clearMembers_eq_filter, List.mem_filter, hs, Bool.not_true] at hm
    exact absurd hm.2 (by simp)
  refine ⟨?_, ?_, ?_⟩
  · exact hkey _ ((mapGet_serviceAccounts_isSome req _).mpr (Or.inl rfl))
  · exact hkey _ ((mapGet_serviceAccounts_isSome req _).mpr (Or.inr (Or.inl rfl)))
  · exact hkey _ ((mapGet_serviceAccounts_isSome req _).mpr (Or.inr (Or.inr rfl)))

/-- C9: for a current policy with at most one binding per role and action remove, when no
resolved template principal is a member of any binding of the current policy, GetUpdatedPolicy
returns a policy in which every role of the current policy is present with exactly the members
it had. -/
theorem GetUpdatedPolicy_remove_absent_unchanged (p : Policy) (iamConf : IamConf)
    (req : ApplyIamRequest) (hp : p.uniqueRoles) (hact : req.Action = "remove")
    (habsent : ∀ tb ∈ iamConf.IamBindings, ∀ x ∈ tb.Members, ∀ b ∈ p.Bindings,
      actualMember req x ∉ b.Members)
    (r : String) (hr : p.hasRole r) :
    (GetUpdatedPolicy p iamConf req).hasRole r
      ∧ ∀ m, (GetUpdatedPolicy p iamConf req).hasMember r m ↔ p.hasMember r m := by
  refine ⟨(hasRole_GetUpdatedPolicy p iamConf req r).mpr (Or.inl hr), ?_⟩
  intro m
  have hne : ¬ req.Action = "add" := by
    rw [hact]
    decide
  have hdisj : templateMember iamConf req r m → ¬ p.hasMember r m := by
    rintro ⟨tb, htb, _, x, hx, hxm⟩ ⟨b, hb, _, hmb⟩
    rw [← hxm] at hmb
    exact habsent tb htb x hx b hb hmb
  rw [hasMember_GetUpdatedPolicy_unique _ _ _ hp]
  tauto

/-- Witness of C9: removing bob, who holds no role, from the policy of Scenario A. -/
theorem GetUpdatedPolicy_remove_absent_unchanged_witness :
    scenarioAPolicy.uniqueRoles ∧ removeRequest.Action = "remove"
      ∧ scenarioAPolicy.hasRole "roles/viewer"
      ∧ ((GetUpdatedPolicy scenarioAPolicy bobTemplate removeRequest).hasMember
          "roles/viewer" "user:alice@example.com"
        ↔ scenarioAPolicy.hasMember "roles/viewer" "user:alice@example.com") :=
  ⟨by decide, by decide, by decide,
    (GetUpdatedPolicy_remove_absent_unchanged scenarioAPolicy bobTemplate removeRequest
      (by decide) (by decide) (by decide) "roles/viewer" (by decide)).2
      "user:alice@example.com"⟩

/-- C10: whatever the input, the roles of the output of GetUpdatedPolicy are pairwise
different, and the number of output bindings of a role is one when the role occurs in the
current policy or in the role list of a template binding with at least one member, and zero
otherwise; neither the action nor the members left in the role matter. -/
theorem GetUpdatedPolicy_one_binding_per_role (p : Policy) (iamConf : IamConf)
    (req : ApplyIamRequest) :
    (GetUpdatedPolicy p iamConf req).uniqueRoles
      ∧ ∀ r : String,
        ((GetUpdatedPolicy p iamConf req).Bindings.map Binding.Role).count r
          = if p.hasRole r ∨ templateRole iamConf r then 1 else 0 := by
  have hu := uniqueRoles_GetUpdatedPolicy p iamConf req
  refine ⟨hu, ?_⟩
  intro r
  have hmem : r ∈ (GetUpdatedPolicy p iamConf req).Bindings.map Binding.Role
      ↔ p.hasRole r ∨ templateRole iamConf r := by
    rw [← hasRole_GetUpdatedPolicy p iamConf req r]
    unfold Policy.hasRole
    simp
  rw [List.count_eq_of_nodup hu]
  by_cases h : p.hasRole r ∨ templateRole iamConf r
  · rw [if_pos h, if_pos (hmem.mpr h)]
  · rw [if_neg h, if_neg (fun hc => h (hmem.mp hc))]

/-! ## strings.Contains and PrepareAccount: lemmas -/

theorem isPrefixOf_eq_true_iff (sub s : List Char) :
    sub.isPrefixOf s = true ↔ ∃ v, s = sub ++ v := by
  simp only [List.isPrefixOf_iff_prefix]
  constructor
  · rintro ⟨t, ht⟩
    exact ⟨t, ht.symm⟩
  · rintro ⟨t, ht⟩
    exact ⟨t, ht.symm⟩

theorem containsChars_eq_true_iff (s sub : List Char) :
    containsChars s sub = true ↔ ∃ u v, s = u ++ sub ++ v := by
  induction s with
  | nil =>
    unfold containsChars
    rw [isPrefixOf_eq_true_iff]
    constructor
    · rintro ⟨v, hv⟩
      exact ⟨[], v, by simpa using hv⟩
    · rintro ⟨u, v, h⟩
      have h2 : u = [] ∧ sub = [] ∧ v = [] := by
        simpa [eq_comm, and_assoc] using h
      exact ⟨[], by simp [h2.2.1]⟩
  | cons c s ih =>
    unfold containsChars
    rw [Bool.or_eq_true, isPrefixOf_eq_true_iff, ih]
    constructor
    · rintro (⟨v, hv⟩ | ⟨u, v, h⟩)
      · exact ⟨[], v, by simpa using hv⟩
      · exact ⟨c :: u, v, by simp [h]⟩
    · rintro ⟨u, v, h⟩
      cases u with
      | nil => exact Or.inl ⟨v, by simpa using h⟩
      | cons c2 u =>
        refine Or.inr ⟨u, v, ?_⟩
        have h2 : c :: s = c2 :: (u ++ sub ++ v) := by simpa using h
        exact (List.cons.inj h2).2

theorem stringsContains_eq_true_iff (s sub : String) :
    stringsContains s sub = true ↔ hasSubstring s sub := by
  unfold stringsContains hasSubstring
  rw [containsChars_eq_true_iff]
  constructor
  · rintro ⟨u, v, h⟩
    refine ⟨String.mk u, String.mk v, ?_⟩
    apply String.ext
    simpa using h
  · rintro ⟨u, v, h⟩
    refine ⟨u.data, v.data, ?_⟩
    rw [h]
    simp

theorem PrepareAccount_of_serviceAccount (a : String)
    (h : hasSubstring a "iam.gserviceaccount.com") :
    PrepareAccount a = "serviceAccount:" ++ a := by
  unfold PrepareAccount
  rw [if_pos ((stringsContains_eq_true_iff a _).mpr h)]

theorem PrepareAccount_of_group (a : String)
    (h1 : ¬ hasSubstring a "iam.gserviceaccount.com")
    (h2 : hasSubstring a "google-kubeflow-support") :
    PrepareAccount a = "group:" ++ a := by
  unfold PrepareAccount
  rw [if_neg (fun hc => h1 ((stringsContains_eq_true_iff a _).mp hc)),
    if_pos ((stringsContains_eq_true_iff a _).mpr h2)]

theorem PrepareAccount_of_user (a : String)
    (h1 : ¬ hasSubstring a "iam.gserviceaccount.com")
    (h2 : ¬ hasSubstring a "google-kubeflow-support") :
    PrepareAccount a = "user:" ++ a := by
  unfold PrepareAccount
  rw [if_neg (fun hc => h1 ((stringsContains_eq_true_iff a _).mp hc)),
    if_neg (fun hc => h2 ((stringsContains_eq_true_iff a _).mp hc))]

theorem PrepareAccount_cases (a : String) :
    PrepareAccount a = "serviceAccount:" ++ a ∨ PrepareAccount a = "group:" ++ a
      ∨ PrepareAccount a = "user:" ++ a := by
  by_cases h1 : hasSubstring a "iam.gserviceaccount.com"
  · exact Or.inl (PrepareAccount_of_serviceAccount a h1)
  · by_cases h2 : hasSubstring a "google-kubeflow-support"
    · exact Or.inr (Or.inl (PrepareAccount_of_group a h1 h2))
    · exact Or.inr (Or.inr (PrepareAccount_of_user a h1 h2))

theorem head_eq_of_append_eq (c1 c2 : Char) (x1 x2 y1 y2 : List Char)
    (h : (c1 :: x1) ++ y1 = (c2 :: x2) ++ y2) : c1 = c2 := by
  simp only [List.cons_append] at h
  exact (List.cons.inj h).1

theorem kindMark_unique (p q a rest : String) (hp : p ∈ kindMarks) (hq : q ∈ kindMarks)
    (h : p ++ a = q ++ rest) : p = q := by
  have hd : p.data ++ a.data = q.data ++ rest.data := by
    have := congrArg String.data h
    simpa using this
  simp only [kindMarks, List.mem_cons, List.mem_singleton, List.not_mem_nil, or_false] at hp hq
  rcases hp with hp | hp | hp <;> rcases hq with hq | hq | hq <;> subst hp <;> subst hq <;>
    first
    | rfl
    | exact absurd (head_eq_of_append_eq _ _ _ _ _ _ hd) (by decide)

theorem hasSubstring_formatted (x mid y : String) :
    hasSubstring (x ++ mid ++ y ++ ".iam.gserviceaccount.com") "iam.gserviceaccount.com" := by
  refine ⟨x ++ mid ++ y ++ ".", "", ?_⟩
  have hdot : ".iam.gserviceaccount.com" = "." ++ "iam.gserviceaccount.com" := by decide
  rw [hdot]
  simp [String.append_assoc]

theorem PrepareAccount_formatted (x mid y : String) :
    PrepareAccount (x ++ mid ++ y ++ ".iam.gserviceaccount.com")
      = "serviceAccount:" ++ x ++ mid ++ y ++ ".iam.gserviceaccount.com" := by
  rw [PrepareAccount_of_serviceAccount _ (hasSubstring_formatted x mid y)]
  simp [String.append_assoc]

theorem actualMember_admin (req : ApplyIamRequest) :
    actualMember req "set-kubeflow-admin-service-account"
      = "serviceAccount:" ++ req.Cluster ++ "-admin@" ++ req.Project
          ++ ".iam.gserviceaccount.com" := by
  have hget : mapGet (saMapping req) "set-kubeflow-admin-service-account"
      = some (PrepareAccount
          (req.Cluster ++ "-admin@" ++ req.Project ++ ".iam.gserviceaccount.com")) := by
    unfold saMapping
    simp only [mapGet_mapSet]
    simp
  unfold actualMember
  rw [hget]
  exact PrepareAccount_formatted _ _ _

theorem actualMember_user (req : ApplyIamRequest) :
    actualMember req "set-kubeflow-user-service-account"
      = "serviceAccount:" ++ req.Cluster ++ "-user@" ++ req.Project
          ++ ".iam.gserviceaccount.com" := by
  have hget : mapGet (saMapping req) "set-kubeflow-user-service-account"
      = some (PrepareAccount
          (req.Cluster ++ "-user@" ++ req.Project ++ ".iam.gserviceaccount.com")) := by
    unfold saMapping
    simp only [mapGet_mapSet]
    simp
  unfold actualMember
  rw [hget]
  exact PrepareAccount_formatted _ _ _

theorem actualMember_vm (req : ApplyIamRequest) :
    actualMember req "set-kubeflow-vm-service-account"
      = "serviceAccount:" ++ req.Cluster ++ "-vm@" ++ req.Project
          ++ ".iam.gserviceaccount.com" := by
  have hget : mapGet (saMapping req) "set-kubeflow-vm-service-account"
      = some (PrepareAccount
          (req.Cluster ++ "-vm@" ++ req.Project ++ ".iam.gserviceaccount.com")) := by
    unfold saMapping
    simp only [mapGet_mapSet]
    simp
  unfold actualMember
  rw [hget]
  exact PrepareAccount_formatted _ _ _

theorem not_hasMember_GetClearServiceAccountpolicy_of_key (p : Policy)
    (req : ApplyIamRequest) (r m : String)
    (hs : (mapGet (serviceAccounts req) m).isSome = true) :
    ¬ (GetClearServiceAccountpolicy p req).hasMember r m := by
  rintro ⟨b, hb, _, hm⟩
  rw [bindings_GetClearServiceAccountpolicy] at hb
  obtain ⟨b0, _, hb0⟩ := List.mem_map.mp hb
  subst hb0
  simp only [clearMembers_eq_filter, List.mem_filter, hs, Bool.not_true] at hm
  exact absurd hm.2 (by simp)

/-- C11: PrepareAccount is a total function whose result depends on the two markers only, the
service-account marker first: it is `serviceAccount:` and the input when the input contains
iam.gserviceaccount.com, else `group:` and the input when it contains google-kubeflow-support,
else `user:` and the input; so the result is one kind mark followed by the unchanged input, and
no other kind mark starts it. -/
theorem PrepareAccount_classification (a : String) :
    (hasSubstring a "iam.gserviceaccount.com" → PrepareAccount a = "serviceAccount:" ++ a)
      ∧ (¬ hasSubstring a "iam.gserviceaccount.com" → hasSubstring a "google-kubeflow-support" →
          PrepareAccount a = "group:" ++ a)
      ∧ (¬ hasSubstring a "iam.gserviceaccount.com" →
          ¬ hasSubstring a "google-kubeflow-support" → PrepareAccount a = "user:" ++ a)
      ∧ ∃ p, p ∈ kindMarks ∧ PrepareAccount a = p ++ a
          ∧ ∀ q rest, q ∈ kindMarks → PrepareAccount a = q ++ rest → q = p := by
  refine ⟨PrepareAccount_of_serviceAccount a, PrepareAccount_of_group a,
    PrepareAccount_of_user a, ?_⟩
  have huniq : ∀ p, p ∈ kindMarks → PrepareAccount a = p ++ a →
      ∀ q rest, q ∈ kindMarks → PrepareAccount a = q ++ rest → q = p := by
    intro p hp hpa q rest hq hqa
    exact (kindMark_unique p q a rest hp hq (hpa.symm.trans hqa)).symm
  rcases PrepareAccount_cases a with h | h | h
  · exact ⟨"serviceAccount:", by simp [kindMarks], h, huniq _ (by simp [kindMarks]) h⟩
  · exact ⟨"group:", by simp [kindMarks], h, huniq _ (by simp [kindMarks]) h⟩
  · exact ⟨"user:", by simp [kindMarks], h, huniq _ (by simp [kindMarks]) h⟩

/-- Witness of C11: an address with both markers is a service account. -/
theorem PrepareAccount_classification_witness :
    hasSubstring "google-kubeflow-support@p1.iam.gserviceaccount.com" "iam.gserviceaccount.com"
      ∧ PrepareAccount "google-kubeflow-support@p1.iam.gserviceaccount.com"
          = "serviceAccount:" ++ "google-kubeflow-support@p1.iam.gserviceaccount.com" :=
  ⟨⟨"google-kubeflow-support@p1.", "", by decide⟩,
    (PrepareAccount_classification "google-kubeflow-support@p1.iam.gserviceaccount.com").1
      ⟨"google-kubeflow-support@p1.", "", by decide⟩⟩

/-- C12 as stated fails: for an address with the service-account marker the result starts with
`serviceAccount:`, not with `service-account:`. -/
theorem PrepareAccount_not_hyphenated :
    hasSubstring "c1-admin@p1.iam.gserviceaccount.com" "iam.gserviceaccount.com"
      ∧ PrepareAccount "c1-admin@p1.iam.gserviceaccount.com"
          ≠ "service-account:" ++ "c1-admin@p1.iam.gserviceaccount.com" :=
  ⟨⟨"c1-admin@p1.", "", by decide⟩, by decide⟩

/-- C12 amended: for every address that contains iam.gserviceaccount.com, PrepareAccount
returns `serviceAccount:` followed by the address. -/
theorem PrepareAccount_serviceAccount_mark (a : String)
    (h : hasSubstring a "iam.gserviceaccount.com") :
    PrepareAccount a = "serviceAccount:" ++ a :=
  PrepareAccount_of_serviceAccount a h

/-- Witness of C12 amended: the admin service account of cluster c1 in project p1. -/
theorem PrepareAccount_serviceAccount_mark_witness :
    hasSubstring "c1-admin@p1.iam.gserviceaccount.com" "iam.gserviceaccount.com"
      ∧ PrepareAccount "c1-admin@p1.iam.gserviceaccount.com"
          = "serviceAccount:" ++ "c1-admin@p1.iam.gserviceaccount.com" :=
  ⟨⟨"c1-admin@p1.", "", by decide⟩,
    PrepareAccount_serviceAccount_mark "c1-admin@p1.iam.gserviceaccount.com"
      ⟨"c1-admin@p1.", "", by decide⟩⟩

/-- C18: whatever the cluster and the project, the principals that GetUpdatedPolicy writes for
the admin, user and vm placeholders are the service-account forms of the formatted addresses,
they are exactly the keys of the map that GetClearServiceAccountpolicy removes, and scrubbing
the output of a merge leaves none of them in any role. -/
theorem placeholders_match_scrubbed_principals (p : Policy) (iamConf : IamConf)
    (req : ApplyIamRequest) (r : String) :
    actualMember req "set-kubeflow-admin-service-account"
        = "serviceAccount:" ++ req.Cluster ++ "-admin@" ++ req.Project
            ++ ".iam.gserviceaccount.com"
      ∧ actualMember req "set-kubeflow-user-service-account"
        = "serviceAccount:" ++ req.Cluster ++ "-user@" ++ req.Project
            ++ ".iam.gserviceaccount.com"
      ∧ actualMember req "set-kubeflow-vm-service-account"
        = "serviceAccount:" ++ req.Cluster ++ "-vm@" ++ req.Project
            ++ ".iam.gserviceaccount.com"
      ∧ (∀ m, (mapGet (serviceAccounts req) m).isSome = true ↔
          (m = actualMember req "set-kubeflow-admin-service-account"
            ∨ m = actualMember req "set-kubeflow-user-service-account"
            ∨ m = actualMember req "set-kubeflow-vm-service-account"))
      ∧ ¬ (GetClearServiceAccountpolicy (GetUpdatedPolicy p iamConf req) req).hasMember r
            (actualMember req "set-kubeflow-admin-service-account")
      ∧ ¬ (GetClearServiceAccountpolicy (GetUpdatedPolicy p iamConf req) req).hasMember r
            (actualMember req "set-kubeflow-user-service-account")
      ∧ ¬ (GetClearServiceAccountpolicy (GetUpdatedPolicy p iamConf req) req).hasMember r
            (actualMember req "set-kubeflow-vm-service-account") := by
  have hkeys : ∀ m, (mapGet (serviceAccounts req) m).isSome = true ↔
      (m = actualMember req "set-kubeflow-admin-service-account"
        ∨ m = actualMember req "set-kubeflow-user-service-account"
        ∨ m = actualMember req "set-kubeflow-vm-service-account") := by
    intro m
    rw [actualMember_admin, actualMember_user, actualMember_vm]
    exact mapGet_serviceAccounts_isSome req m
  refine ⟨actualMember_admin req, actualMember_user req, actualMember_vm req, hkeys, ?_, ?_, ?_⟩
  · exact not_hasMember_GetClearServiceAccountpolicy_of_key _ req r _
      ((hkeys _).mpr (Or.inl rfl))
  · exact not_hasMember_GetClearServiceAccountpolicy_of_key _ req r _
      ((hkeys _).mpr (Or.inr (Or.inl rfl)))
  · exact not_hasMember_GetClearServiceAccountpolicy_of_key _ req r _
      ((hkeys _).mpr (Or.inr (Or.inr rfl)))

theorem mapVal_buildPolicyMap_lastBinding (p : Policy) (r m : String) :
    mapVal (buildPolicyMap p) r m = some true
      ↔ ∃ b, lastBinding p.Bindings r = some b ∧ m ∈ b.Members := by
  have hgen : ∀ (bs : List Binding) (acc : List (String × List (String × Bool))),
      mapVal
          (bs.foldl
            (fun policyMap binding =>
              binding.Members.foldl
                (fun policyMap member => mapSetInner policyMap binding.Role member true)
                (mapSet policyMap binding.Role []))
            acc) r m
        = match lastBinding bs r with
          | some b => if m ∈ b.Members then some true else none
          | none => mapVal acc r m := by
    intro bs
    induction bs with
    | nil =>
      intro acc
      simp [lastBinding]
    | cons b bs ih =>
      intro acc
      rw [List.foldl_cons, ih, mapVal_buildStep]
      cases hl : lastBinding bs r with
      | some b2 => simp [lastBinding, hl]
      | none =>
        by_cases hr : b.Role = r
        · simp [lastBinding, hl, hr]
        · have hr2 : ¬ r = b.Role := fun h => hr h.symm
          simp [lastBinding, hl, hr, hr2]
  unfold buildPolicyMap
  rw [hgen]
  cases hl : lastBinding p.Bindings r with
  | none => simp [mapVal, mapGet]
  | some b =>
    by_cases hm : m ∈ b.Members
    · simp [hm]
    · simp [hm]

/-- C19: for every current policy and template, a request whose Action is not `add` gives the
same roles and, for every role, the same members as the same request with Action `remove`. -/
theorem GetUpdatedPolicy_non_add_is_remove (p : Policy) (iamConf : IamConf)
    (req : ApplyIamRequest) (hact : req.Action ≠ "add") :
    (∀ r,
        (GetUpdatedPolicy p iamConf req).hasRole r
          ↔ (GetUpdatedPolicy p iamConf (withAction req "remove")).hasRole r)
      ∧ (∀ r m,
        (GetUpdatedPolicy p iamConf req).hasMember r m
          ↔ (GetUpdatedPolicy p iamConf (withAction req "remove")).hasMember r m) := by
  have hrem : ¬ (withAction req "remove").Action = "add" := by
    simp [withAction]
  constructor
  · intro r
    rw [hasRole_GetUpdatedPolicy, hasRole_GetUpdatedPolicy]
  · intro r m
    rw [hasMember_GetUpdatedPolicy, hasMember_GetUpdatedPolicy, templateMember_withAction]
    tauto

/-- Witness of C19: the action Add, with a capital, deletes bob like remove does. -/
theorem GetUpdatedPolicy_non_add_is_remove_witness :
    capitalAddRequest.Action ≠ "add"
      ∧ ((GetUpdatedPolicy scenarioAPolicy bobTemplate capitalAddRequest).hasMember
          "roles/viewer" "bob@example.com"
        ↔ (GetUpdatedPolicy scenarioAPolicy bobTemplate
            (withAction capitalAddRequest "remove")).hasMember
          "roles/viewer" "bob@example.com") :=
  ⟨by decide,
    (GetUpdatedPolicy_non_add_is_remove scenarioAPolicy bobTemplate capitalAddRequest
      (by decide)).2 "roles/viewer" "bob@example.com"⟩

/-- C20: a principal outside the template is a member of role r in the output exactly when
it is a member of the last binding of r in the current policy; in a policy with two bindings
of roles/viewer and the empty template, alice, listed in the first binding only, is a member
of the current policy and of no binding of the output. -/
theorem GetUpdatedPolicy_keeps_last_binding_only (p : Policy) (iamConf : IamConf)
    (req : ApplyIamRequest) (r m : String) :
    ((GetUpdatedPolicy p iamConf req).hasMember r m ↔
        (templateMember iamConf req r m ∧ req.Action = "add")
          ∨ (¬ templateMember iamConf req r m
              ∧ ∃ b, lastBinding p.Bindings r = some b ∧ m ∈ b.Members))
      ∧ ¬ duplicatedRolePolicy.uniqueRoles
      ∧ duplicatedRolePolicy.hasMember "roles/viewer" "user:alice@example.com"
      ∧ ∀ b ∈ (GetUpdatedPolicy duplicatedRolePolicy (IamConf.mk []) scenarioARequest).Bindings,
          "user:alice@example.com" ∉ b.Members := by
  refine ⟨?_, by decide, by decide, by decide⟩
  rw [hasMember_GetUpdatedPolicy, mapVal_buildPolicyMap_lastBinding]

/-! ## The retry loop: lemmas -/

theorem retryLoop_attempt {σ : Type} (rm : Remote σ) (iamConf : IamConf)
    (req : ApplyIamRequest) (n : Nat) (s : σ) (tr : List Event) (e0 : Option Error) :
    retryLoop rm iamConf req (n + 1) s tr e0
      = match (attempt rm iamConf req s).err with
        | some e =>
          retryLoop rm iamConf req n (attempt rm iamConf req s).store
            (tr ++ ((attempt rm iamConf req s).events ++ [Event.sleep 3])) (some e)
        | none =>
          LoopEnd.mk (attempt rm iamConf req s).store
            (tr ++ (attempt rm iamConf req s).events) none := by
  rw [retryLoop]
  unfold attempt
  rcases h1 : rm.getIamPolicy s req.Project with ⟨res, s1⟩
  cases res with
  | error e => simp
  | ok fetched =>
    simp only
    rcases h2 : rm.setIamPolicy s1 req.Project (GetClearServiceAccountpolicy fetched req)
      with ⟨r2, s2⟩
    cases r2 with
    | some e => simp
    | none =>
      simp only
      rcases h3 : rm.setIamPolicy s2 req.Project (GetUpdatedPolicy fetched iamConf req)
        with ⟨r3, s3⟩
      cases r3 with
      | some e => simp
      | none => simp

theorem fetches_append (a b : List Event) : fetches (a ++ b) = fetches a + fetches b := by
  induction a with
  | nil => simp [fetches]
  | cons e a ih =>
    cases e <;> simp [fetches, ih]
    omega

theorem sleeps_append (a b : List Event) : sleeps (a ++ b) = sleeps a ++ sleeps b := by
  induction a with
  | nil => simp [sleeps]
  | cons e a ih =>
    cases e <;> simp [sleeps, ih]

theorem attempt_events_counts {σ : Type} (rm : Remote σ) (iamConf : IamConf)
    (req : ApplyIamRequest) (s : σ) :
    fetches (attempt rm iamConf req s).events = 1
      ∧ sleeps (attempt rm iamConf req s).events = []
      ∧ ∀ e ∈ (attempt rm iamConf req s).events, isLockEvent e = false := by
  unfold attempt
  rcases rm.getIamPolicy s req.Project with ⟨res, s1⟩
  cases res with
  | error e => simp [fetches, sleeps, isLockEvent]
  | ok fetched =>
    simp only
    rcases rm.setIamPolicy s1 req.Project (GetClearServiceAccountpolicy fetched req)
      with ⟨r2, s2⟩
    cases r2 with
    | some e => simp [fetches, sleeps, isLockEvent]
    | none =>
      simp only
      rcases rm.setIamPolicy s2 req.Project (GetUpdatedPolicy fetched iamConf req)
        with ⟨r3, s3⟩
      cases r3 with
      | some e => simp [fetches, sleeps, isLockEvent]
      | none => simp [fetches, sleeps, isLockEvent]

theorem failedTrace_counts {σ : Type} (rm : Remote σ) (iamConf : IamConf)
    (req : ApplyIamRequest) (i : Nat) (s : σ) :
    fetches (failedTrace rm iamConf req i s) = i
      ∧ sleeps (failedTrace rm iamConf req i s) = List.replicate i 3 := by
  induction i generalizing s with
  | zero => simp [failedTrace, fetches, sleeps]
  | succ i ih =>
    have ha := attempt_events_counts rm iamConf req s
    have hi := ih (attempt rm iamConf req s).store
    unfold failedTrace
    constructor
    · rw [fetches_append, fetches_append, ha.1, hi.1]
      simp [fetches]
      omega
    · rw [sleeps_append, sleeps_append, ha.2.1, hi.2]
      simp [sleeps, List.replicate_succ]

theorem retryLoop_first_success {σ : Type} (rm : Remote σ) (iamConf : IamConf)
    (req : ApplyIamRequest) (i : Nat) :
    ∀ (n : Nat) (s : σ) (tr : List Event) (e0 : Option Error), i < n →
      (∀ j, j < i → (attempt rm iamConf req (storeAfter rm iamConf req j s)).err ≠ none) →
      (attempt rm iamConf req (storeAfter rm iamConf req i s)).err = none →
      retryLoop rm iamConf req n s tr e0
        = LoopEnd.mk (attempt rm iamConf req (storeAfter rm iamConf req i s)).store
            (tr ++ (failedTrace rm iamConf req i s
              ++ (attempt rm iamConf req (storeAfter rm iamConf req i s)).events))
            none := by
  induction i with
  | zero =>
    intro n s tr e0 hn _ hok
    obtain ⟨n, rfl⟩ : ∃ n2, n = n2 + 1 := ⟨n - 1, by omega⟩
    simp only [storeAfter] at hok
    rw [retryLoop_attempt, hok]
    simp [storeAfter, failedTrace]
  | succ i ih =>
    intro n s tr e0 hn hfail hok
    obtain ⟨n, rfl⟩ : ∃ n2, n = n2 + 1 := ⟨n - 1, by omega⟩
    have h0 : (attempt rm iamConf req s).err ≠ none := by
      have := hfail 0 (by omega)
      simpa [storeAfter] using this
    rw [retryLoop_attempt]
    cases he : (attempt rm iamConf req s).err with
    | none => exact absurd he h0
    | some e =>
      simp only
      rw [ih n (attempt rm iamConf req s).store _ (some e) (by omega)
        (fun j hj => by simpa [storeAfter] using hfail (j + 1) (by omega))
        (by simpa [storeAfter] using hok)]
      simp [storeAfter, failedTrace, List.append_assoc]

theorem fetches_retryLoop_le {σ : Type} (rm : Remote σ) (iamConf : IamConf)
    (req : ApplyIamRequest) (n : Nat) :
    ∀ (s : σ) (tr : List Event) (e0 : Option Error),
      fetches (retryLoop rm iamConf req n s tr e0).trace ≤ fetches tr + n := by
  induction n with
  | zero =>
    intro s tr e0
    simp [retryLoop]
  | succ n ih =>
    intro s tr e0
    have ha := (attempt_events_counts rm iamConf req s).1
    rw [retryLoop_attempt]
    cases he : (attempt rm iamConf req s).err with
    | none =>
      simp only
      rw [fetches_append, ha]
      omega
    | some e =>
      simp only
      refine le_trans (ih _ _ _) ?_
      rw [fetches_append, fetches_append, ha]
      simp [fetches]
      omega

theorem retryLoop_ordered {σ : Type} (rm : Remote σ) (iamConf : IamConf)
    (req : ApplyIamRequest) (n : Nat) :
    ∀ (s : σ) (tr : List Event) (e0 : Option Error),
      ∃ body, (retryLoop rm iamConf req n s tr e0).trace = tr ++ body
        ∧ OrderedRun rm iamConf req n s body
        ∧ ∀ e ∈ body, isLockEvent e = false := by
  induction n with
  | zero =>
    intro s tr e0
    exact ⟨[], by simp [retryLoop], OrderedRun.done s, by simp⟩
  | succ n ih =>
    intro s tr e0
    rw [retryLoop]
    rcases h1 : rm.getIamPolicy s req.Project with ⟨res, s1⟩
    cases res with
    | error e =>
      simp only
      obtain ⟨body, hb, ho, hl⟩ := ih s1
        (tr ++ [Event.getIamPolicy req.Project, Event.sleep 3]) (some e)
      refine ⟨Event.getIamPolicy req.Project :: Event.sleep 3 :: body, ?_,
        OrderedRun.fetchFailed n s s1 e body h1 ho, ?_⟩
      · rw [hb]
        simp
      · intro ev hev
        simp only [List.mem_cons] at hev
        rcases hev with hev | hev | hev
        · rw [hev]; rfl
        · rw [hev]; rfl
        · exact hl ev hev
    | ok fetched =>
      simp only
      rcases h2 : rm.setIamPolicy s1 req.Project (GetClearServiceAccountpolicy fetched req)
        with ⟨r2, s2⟩
      cases r2 with
      | some e =>
        simp only
        obtain ⟨body, hb, ho, hl⟩ := ih s2
          (tr ++ [Event.getIamPolicy req.Project,
            Event.setIamPolicy req.Project (GetClearServiceAccountpolicy fetched req),
            Event.sleep 3]) (some e)
        refine ⟨Event.getIamPolicy req.Project
          :: Event.setIamPolicy req.Project (GetClearServiceAccountpolicy fetched req)
          :: Event.sleep 3 :: body, ?_,
          OrderedRun.scrubFailed n s s1 s2 fetched e body h1 h2 ho, ?_⟩
        · rw [hb]
          simp
        · intro ev hev
          simp only [List.mem_cons] at hev
          rcases hev with hev | hev | hev | hev
          · rw [hev]; rfl
          · rw [hev]; rfl
          · rw [hev]; rfl
          · exact hl ev hev
      | none =>
        simp only
        rcases h3 : rm.setIamPolicy s2 req.Project (GetUpdatedPolicy fetched iamConf req)
          with ⟨r3, s3⟩
        cases r3 with
        | some e =>
          simp only
          obtain ⟨body, hb, ho, hl⟩ := ih s3
            (tr ++ [Event.getIamPolicy req.Project,
              Event.setIamPolicy req.Project (GetClearServiceAccountpolicy fetched req),
              Event.setIamPolicy req.Project (GetUpdatedPolicy fetched iamConf req),
              Event.sleep 3]) (some e)
          refine ⟨Event.getIamPolicy req.Project
            :: Event.setIamPolicy req.Project (GetClearServiceAccountpolicy fetched req)
            :: Event.setIamPolicy req.Project (GetUpdatedPolicy fetched iamConf req)
            :: Event.sleep 3 :: body, ?_,
            OrderedRun.mergeFailed n s s1 s2 s3 fetched e body h1 h2 h3 ho, ?_⟩
          · rw [hb]
            simp
          · intro ev hev
            simp only [List.mem_cons] at hev
            rcases hev with hev | hev | hev | hev | hev
            · rw [hev]; rfl
            · rw [hev]; rfl
            · rw [hev]; rfl
            · rw [hev]; rfl
            · exact hl ev hev
        | none =>
          simp only
          refine ⟨[Event.getIamPolicy req.Project,
            Event.setIamPolicy req.Project (GetClearServiceAccountpolicy fetched req),
            Event.setIamPolicy req.Project (GetUpdatedPolicy fetched iamConf req)], rfl,
            OrderedRun.succeeded n s s1 s2 s3 fetched h1 h2 h3, ?_⟩
          intro ev hev
          simp only [List.mem_cons, List.mem_singleton, List.not_mem_nil, or_false] at hev
          rcases hev with hev | hev | hev
          · rw [hev]; rfl
          · rw [hev]; rfl
          · rw [hev]; rfl

theorem pushes_append (a b : List Event) : pushes (a ++ b) = pushes a ++ pushes b := by
  induction a with
  | nil => simp [pushes]
  | cons e a ih =>
    cases e <;> simp [pushes, ih]

theorem trace_ApplyIamPolicy_of_started {σ : Type} (env : Env σ) (s : σ)
    (req : ApplyIamRequest) (iamConf : IamConf) (hload : env.loadConfig = Except.ok iamConf)
    (hclient : env.newClient = none) :
    (ApplyIamPolicy env s req).trace
      = (retryLoop env.remote iamConf req 5 s [Event.lock req.Project] none).trace
          ++ [Event.unlock req.Project] := by
  unfold ApplyIamPolicy
  rw [hload]
  simp only [hclient]

/-- C13: once the template is loaded and the client created, the call makes at most 5 fetches
whatever the store does; and if the attempt after `i` failed ones (`i < 5`, so attempt
`k = i + 1`) is the first whose fetch and two pushes all succeed, the call returns nil, makes
exactly `k` fetches, waits 3 seconds exactly `k - 1` times, and its trace is the lock, the
failed attempts each followed by its wait, the successful attempt, and the unlock. -/
theorem ApplyIamPolicy_stops_at_first_success {σ : Type} (env : Env σ) (s : σ)
    (req : ApplyIamRequest) (iamConf : IamConf) (hload : env.loadConfig = Except.ok iamConf)
    (hclient : env.newClient = none) :
    fetches (ApplyIamPolicy env s req).trace ≤ 5
      ∧ ∀ i, i < 5 →
        (∀ j, j < i →
          (attempt env.remote iamConf req (storeAfter env.remote iamConf req j s)).err ≠ none) →
        (attempt env.remote iamConf req (storeAfter env.remote iamConf req i s)).err = none →
        (ApplyIamPolicy env s req).err = none
          ∧ fetches (ApplyIamPolicy env s req).trace = i + 1
          ∧ sleeps (ApplyIamPolicy env s req).trace = List.replicate i 3
          ∧ (ApplyIamPolicy env s req).trace
              = Event.lock req.Project
                  :: (failedTrace env.remote iamConf req i s
                    ++ (attempt env.remote iamConf req
                        (storeAfter env.remote iamConf req i s)).events)
                  ++ [Event.unlock req.Project] := by
  have htr := trace_ApplyIamPolicy_of_started env s req iamConf hload hclient
  constructor
  · rw [htr, fetches_append]
    have := fetches_retryLoop_le env.remote iamConf req 5 s [Event.lock req.Project] none
    simp only [fetches] at this ⊢
    omega
  · intro i hi hfail hok
    have hloop := retryLoop_first_success env.remote iamConf req i 5 s
      [Event.lock req.Project] none hi hfail hok
    have hfull : (ApplyIamPolicy env s req).trace
        = Event.lock req.Project
            :: (failedTrace env.remote iamConf req i s
              ++ (attempt env.remote iamConf req
                  (storeAfter env.remote iamConf req i s)).events)
            ++ [Event.unlock req.Project] := by
      rw [htr, hloop]
      simp
    have hc := failedTrace_counts env.remote iamConf req i s
    have ha := attempt_events_counts env.remote iamConf req
      (storeAfter env.remote iamConf req i s)
    refine ⟨err_ApplyIamPolicy_of_started env s req iamConf hload hclient, ?_, ?_, hfull⟩
    · rw [hfull]
      have hsplit : Event.lock req.Project
          :: (failedTrace env.remote iamConf req i s
            ++ (attempt env.remote iamConf req
                (storeAfter env.remote iamConf req i s)).events)
          ++ [Event.unlock req.Project]
          = [Event.lock req.Project]
            ++ (failedTrace env.remote iamConf req i s
              ++ ((attempt env.remote iamConf req
                  (storeAfter env.remote iamConf req i s)).events
                ++ [Event.unlock req.Project])) := by simp
      rw [hsplit, fetches_append, fetches_append, fetches_append, hc.1, ha.1]
      simp [fetches]
    · rw [hfull]
      have hsplit : Event.lock req.Project
          :: (failedTrace env.remote iamConf req i s
            ++ (attempt env.remote iamConf req
                (storeAfter env.remote iamConf req i s)).events)
          ++ [Event.unlock req.Project]
          = [Event.lock req.Project]
            ++ (failedTrace env.remote iamConf req i s
              ++ ((attempt env.remote iamConf req
                  (storeAfter env.remote iamConf req i s)).events
                ++ [Event.unlock req.Project])) := by simp
      rw [hsplit, sleeps_append, sleeps_append, sleeps_append, hc.2, ha.2.1]
      simp [sleeps]

/-- Witness of C13 (Scenario C): the fetch fails on attempts 1 to 4 and everything succeeds
on attempt 5; the call returns nil after exactly 5 fetches and 4 waits of 3 seconds. -/
theorem ApplyIamPolicy_stops_at_first_success_witness :
    scenarioCEnv.loadConfig = Except.ok scenarioATemplate ∧ scenarioCEnv.newClient = none
      ∧ (ApplyIamPolicy scenarioCEnv 0 scenarioARequest).err = none
      ∧ fetches (ApplyIamPolicy scenarioCEnv 0 scenarioARequest).trace = 4 + 1
      ∧ sleeps (ApplyIamPolicy scenarioCEnv 0 scenarioARequest).trace = List.replicate 4 3 :=
  ⟨rfl, rfl,
    ((ApplyIamPolicy_stops_at_first_success scenarioCEnv 0 scenarioARequest scenarioATemplate
      rfl rfl).2 4 (by decide) (by decide) (by decide)).1,
    ((ApplyIamPolicy_stops_at_first_success scenarioCEnv 0 scenarioARequest scenarioATemplate
      rfl rfl).2 4 (by decide) (by decide) (by decide)).2.1,
    ((ApplyIamPolicy_stops_at_first_success scenarioCEnv 0 scenarioARequest scenarioATemplate
      rfl rfl).2 4 (by decide) (by decide) (by decide)).2.2.1⟩

theorem OrderedRun_unique {σ : Type} (rm : Remote σ) (iamConf : IamConf)
    (req : ApplyIamRequest) (n : Nat) (s : σ) (b1 b2 : List Event)
    (h1 : OrderedRun rm iamConf req n s b1) (h2 : OrderedRun rm iamConf req n s b2) :
    b1 = b2 := by
  induction h1 generalizing b2 with
  | done s =>
    cases h2
    rfl
  | fetchFailed n s s1 e rest hfetch hrest ih =>
    cases h2 with
    | fetchFailed _ _ s1b eb restb hfetchb hrestb =>
      rw [hfetch] at hfetchb
      have hs : s1 = s1b := (Prod.mk.inj hfetchb).2
      subst hs
      rw [ih restb hrestb]
    | scrubFailed _ _ s1b s2b fetchedb eb restb hfetchb hscrubb hrestb =>
      rw [hfetch] at hfetchb
      exact absurd (Prod.mk.inj hfetchb).1 (by simp)
    | mergeFailed _ _ s1b s2b s3b fetchedb eb restb hfetchb hscrubb hmergeb hrestb =>
      rw [hfetch] at hfetchb
      exact absurd (Prod.mk.inj hfetchb).1 (by simp)
    | succeeded _ _ s1b s2b s3b fetchedb hfetchb hscrubb hmergeb =>
      rw [hfetch] at hfetchb
      exact absurd (Prod.mk.inj hfetchb).1 (by simp)
  | scrubFailed n s s1 s2 fetched e rest hfetch hscrub hrest ih =>
    cases h2 with
    | fetchFailed _ _ s1b eb restb hfetchb hrestb =>
      rw [hfetch] at hfetchb
      exact absurd (Prod.mk.inj hfetchb).1 (by simp)
    | scrubFailed _ _ s1b s2b fetchedb eb restb hfetchb hscrubb hrestb =>
      rw [hfetch] at hfetchb
      have hf : fetched = fetchedb := Except.ok.inj (Prod.mk.inj hfetchb).1
      have hs : s1 = s1b := (Prod.mk.inj hfetchb).2
      subst hf
      subst hs
      rw [hscrub] at hscrubb
      have hs2 : s2 = s2b := (Prod.mk.inj hscrubb).2
      subst hs2
      rw [ih restb hrestb]
    | mergeFailed _ _ s1b s2b s3b fetchedb eb restb hfetchb hscrubb hmergeb hrestb =>
      rw [hfetch] at hfetchb
      have hf : fetched = fetchedb := Except.ok.inj (Prod.mk.inj hfetchb).1
      have hs : s1 = s1b := (Prod.mk.inj hfetchb).2
      subst hf
      subst hs
      rw [hscrub] at hscrubb
      exact absurd (Prod.mk.inj hscrubb).1 (by simp)
    | succeeded _ _ s1b s2b s3b fetchedb hfetchb hscrubb hmergeb =>
      rw [hfetch] at hfetchb
      have hf : fetched = fetchedb := Except.ok.inj (Prod.mk.inj hfetchb).1
      have hs : s1 = s1b := (Prod.mk.inj hfetchb).2
      subst hf
      subst hs
      rw [hscrub] at hscrubb
      exact absurd (Prod.mk.inj hscrubb).1 (by simp)
  | mergeFailed n s s1 s2 s3 fetched e rest hfetch hscrub hmerge hrest ih =>
    cases h2 with
    | fetchFailed _ _ s1b eb restb hfetchb hrestb =>
      rw [hfetch] at hfetchb
      exact absurd (Prod.mk.inj hfetchb).1 (by simp)
    | scrubFailed _ _ s1b s2b fetchedb eb restb hfetchb hscrubb hrestb =>
      rw [hfetch] at hfetchb
      have hf : fetched = fetchedb := Except.ok.inj (Prod.mk.inj hfetchb).1
      have hs : s1 = s1b := (Prod.mk.inj hfetchb).2
      subst hf
      subst hs
      rw [hscrub] at hscrubb
      exact absurd (Prod.mk.inj hscrubb).1 (by simp)
    | mergeFailed _ _ s1b s2b s3b fetchedb eb restb hfetchb hscrubb hmergeb hrestb =>
      rw [hfetch] at hfetchb
      have hf : fetched = fetchedb := Except.ok.inj (Prod.mk.inj hfetchb).1
      have hs : s1 = s1b := (Prod.mk.inj hfetchb).2
      subst hf
      subst hs
      rw [hscrub] at hscrubb
      have hs2 : s2 = s2b := (Prod.mk.inj hscrubb).2
      subst hs2
      rw [hmerge] at hmergeb
      have hs3 : s3 = s3b := (Prod.mk.inj hmergeb).2
      subst hs3
      rw [ih restb hrestb]
    | succeeded _ _ s1b s2b s3b fetchedb hfetchb hscrubb hmergeb =>
      rw [hfetch] at hfetchb
      have hf : fetched = fetchedb := Except.ok.inj (Prod.mk.inj hfetchb).1
      have hs : s1 = s1b := (Prod.mk.inj hfetchb).2
      subst hf
      subst hs
      rw [hscrub] at hscrubb
      have hs2 : s2 = s2b := (Prod.mk.inj hscrubb).2
      subst hs2
      rw [hmerge] at hmergeb
      exact absurd (Prod.mk.inj hmergeb).1 (by simp)
  | succeeded n s s1 s2 s3 fetched hfetch hscrub hmerge =>
    cases h2 with
    | fetchFailed _ _ s1b eb restb hfetchb hrestb =>
      rw [hfetch] at hfetchb
      exact absurd (Prod.mk.inj hfetchb).1 (by simp)
    | scrubFailed _ _ s1b s2b fetchedb eb restb hfetchb hscrubb hrestb =>
      rw [hfetch] at hfetchb
      have hf : fetched = fetchedb := Except.ok.inj (Prod.mk.inj hfetchb).1
      have hs : s1 = s1b := (Prod.mk.inj hfetchb).2
      subst hf
      subst hs
      rw [hscrub] at hscrubb
      exact absurd (Prod.mk.inj hscrubb).1 (by simp)
    | mergeFailed _ _ s1b s2b s3b fetchedb eb restb hfetchb hscrubb hmergeb hrestb =>
      rw [hfetch] at hfetchb
      have hf : fetched = fetchedb := Except.ok.inj (Prod.mk.inj hfetchb).1
      have hs : s1 = s1b := (Prod.mk.inj hfetchb).2
      subst hf
      subst hs
      rw [hscrub] at hscrubb
      have hs2 : s2 = s2b := (Prod.mk.inj hscrubb).2
      subst hs2
      rw [hmerge] at hmergeb
      exact absurd (Prod.mk.inj hmergeb).1 (by simp)
    | succeeded _ _ s1b s2b s3b fetchedb hfetchb hscrubb hmergeb =>
      rw [hfetch] at hfetchb
      have hf : fetched = fetchedb := Except.ok.inj (Prod.mk.inj hfetchb).1
      subst hf
      rfl

theorem attempt_of_fetchFails {σ : Type} (rm : Remote σ) (iamConf : IamConf)
    (req : ApplyIamRequest) (s : σ) (h : fetchFails rm req s = true) :
    (attempt rm iamConf req s).events = [Event.getIamPolicy req.Project]
      ∧ (attempt rm iamConf req s).err ≠ none := by
  unfold fetchFails at h
  unfold attempt
  rcases h1 : rm.getIamPolicy s req.Project with ⟨res, s1⟩
  rw [h1] at h
  cases res with
  | error e => simp
  | ok fetched => simp at h

theorem attempt_of_success {σ : Type} (rm : Remote σ) (iamConf : IamConf)
    (req : ApplyIamRequest) (s s1 s2 s3 : σ) (fetched : Policy)
    (hfetch : rm.getIamPolicy s req.Project = (Except.ok fetched, s1))
    (hscrub : rm.setIamPolicy s1 req.Project (GetClearServiceAccountpolicy fetched req)
      = (none, s2))
    (hmerge : rm.setIamPolicy s2 req.Project (GetUpdatedPolicy fetched iamConf req)
      = (none, s3)) :
    (attempt rm iamConf req s).events
        = [Event.getIamPolicy req.Project,
            Event.setIamPolicy req.Project (GetClearServiceAccountpolicy fetched req),
            Event.setIamPolicy req.Project (GetUpdatedPolicy fetched iamConf req)]
      ∧ (attempt rm iamConf req s).err = none := by
  unfold attempt
  rw [hfetch]
  simp only
  rw [hscrub]
  simp only
  rw [hmerge]
  exact ⟨rfl, rfl⟩

theorem pushes_retryLoop_of_fetch_fails {σ : Type} (rm : Remote σ) (iamConf : IamConf)
    (req : ApplyIamRequest) (n : Nat) :
    ∀ (s : σ) (tr : List Event) (e0 : Option Error),
      (∀ j, j < n → fetchFails rm req (storeAfter rm iamConf req j s) = true) →
      pushes (retryLoop rm iamConf req n s tr e0).trace = pushes tr := by
  induction n with
  | zero =>
    intro s tr e0 _
    simp [retryLoop]
  | succ n ih =>
    intro s tr e0 hfail
    have h0 := attempt_of_fetchFails rm iamConf req s
      (by simpa [storeAfter] using hfail 0 (by omega))
    rw [retryLoop_attempt]
    cases he : (attempt rm iamConf req s).err with
    | none => exact absurd he h0.2
    | some e =>
      simp only
      rw [ih _ _ _ (fun j hj => by simpa [storeAfter] using hfail (j + 1) (by omega)), h0.1]
      simp [pushes_append, pushes]

/-- C14: once the template is loaded and the client created, the events between the lock and
the unlock are a run of five attempts in the order of the retry loop, and the only such run
from the initial store: every attempt is a fetch alone when the fetch fails, a fetch and the
push of the scrubbed fetched policy when that push fails, and otherwise a fetch, the push of
the scrubbed policy and the push of the policy merged from the same fetched policy; a
successful attempt ends the run.  So when the fetch fails on all five attempts, nothing is
pushed. -/
theorem ApplyIamPolicy_remote_calls_ordered {σ : Type} (env : Env σ) (s : σ)
    (req : ApplyIamRequest) (iamConf : IamConf) (hload : env.loadConfig = Except.ok iamConf)
    (hclient : env.newClient = none) :
    (∃ body, (ApplyIamPolicy env s req).trace
        = Event.lock req.Project :: body ++ [Event.unlock req.Project]
      ∧ OrderedRun env.remote iamConf req 5 s body)
      ∧ (∀ body, OrderedRun env.remote iamConf req 5 s body →
          (ApplyIamPolicy env s req).trace
            = Event.lock req.Project :: body ++ [Event.unlock req.Project])
      ∧ ((∀ j, j < 5 →
            fetchFails env.remote req (storeAfter env.remote iamConf req j s) = true) →
          pushes (ApplyIamPolicy env s req).trace = []) := by
  have htr := trace_ApplyIamPolicy_of_started env s req iamConf hload hclient
  obtain ⟨body, hb, ho, _⟩ :=
    retryLoop_ordered env.remote iamConf req 5 s [Event.lock req.Project] none
  have hfull : (ApplyIamPolicy env s req).trace
      = Event.lock req.Project :: body ++ [Event.unlock req.Project] := by
    rw [htr, hb]
    simp
  refine ⟨⟨body, hfull, ho⟩, ?_, ?_⟩
  · intro body2 ho2
    rw [hfull, OrderedRun_unique env.remote iamConf req 5 s body body2 ho ho2]
  · intro hfail
    rw [htr, pushes_append,
      pushes_retryLoop_of_fetch_fails env.remote iamConf req 5 s _ none hfail]
    simp [pushes]

/-- Witness of C14: in Scenario A the first attempt succeeds and the trace is the lock, the
fetch, the push of the scrubbed policy, the push of the merged policy and the unlock; in
Scenario D the fetch fails on the five attempts (a sixth would succeed) and nothing is
pushed. -/
theorem ApplyIamPolicy_remote_calls_ordered_witness :
    scenarioAEnv.loadConfig = Except.ok scenarioATemplate ∧ scenarioAEnv.newClient = none
      ∧ (ApplyIamPolicy scenarioAEnv () scenarioARequest).trace
          = Event.lock scenarioARequest.Project
              :: [Event.getIamPolicy scenarioARequest.Project,
                  Event.setIamPolicy scenarioARequest.Project
                    (GetClearServiceAccountpolicy scenarioAPolicy scenarioARequest),
                  Event.setIamPolicy scenarioARequest.Project
                    (GetUpdatedPolicy scenarioAPolicy scenarioATemplate scenarioARequest)]
              ++ [Event.unlock scenarioARequest.Project]
      ∧ scenarioDEnv.loadConfig = Except.ok scenarioATemplate ∧ scenarioDEnv.newClient = none
      ∧ (∀ j, j < 5 →
          fetchFails scenarioDEnv.remote scenarioARequest
            (storeAfter scenarioDEnv.remote scenarioATemplate scenarioARequest j 0) = true)
      ∧ fetchFails scenarioDEnv.remote scenarioARequest 5 = false
      ∧ pushes (ApplyIamPolicy scenarioDEnv 0 scenarioARequest).trace = [] :=
  ⟨rfl, rfl,
    (ApplyIamPolicy_remote_calls_ordered scenarioAEnv () scenarioARequest scenarioATemplate
      rfl rfl).2.1 _
      (OrderedRun.succeeded 4 () () () () scenarioAPolicy rfl rfl rfl),
    rfl, rfl, by decide, by decide,
    (ApplyIamPolicy_remote_calls_ordered scenarioDEnv 0 scenarioARequest scenarioATemplate
      rfl rfl).2.2 (by decide)⟩

/-- C15: when LoadConfig fails, ApplyIamPolicy returns the error of LoadConfig and does
nothing else: no lock, no fetch, no push, no wait, and the store is as it was. -/
theorem ApplyIamPolicy_load_failure (σ : Type) (env : Env σ) (s : σ) (req : ApplyIamRequest)
    (e : Error) (hload : env.loadConfig = Except.error e) :
    (ApplyIamPolicy env s req).err = some e
      ∧ (ApplyIamPolicy env s req).trace = []
      ∧ (ApplyIamPolicy env s req).store = s := by
  unfold ApplyIamPolicy
  rw [hload]
  exact ⟨rfl, rfl, rfl⟩

/-- Witness of C15: a template that cannot be read. -/
theorem ApplyIamPolicy_load_failure_witness :
    loadFailEnv.loadConfig = Except.error "cannot read template"
      ∧ (ApplyIamPolicy loadFailEnv () scenarioARequest).err = some "cannot read template"
      ∧ (ApplyIamPolicy loadFailEnv () scenarioARequest).trace = []
      ∧ (ApplyIamPolicy loadFailEnv () scenarioARequest).store = () :=
  ⟨rfl,
    ApplyIamPolicy_load_failure Unit loadFailEnv () scenarioARequest "cannot read template" rfl⟩

/-- C16: once the template is loaded and the client created, the trace of the call is the
lock of req.Project, then events none of which acquires or releases a lock, then the unlock of
req.Project; this holds whether the loop ends by a successful attempt or by exhaustion. -/
theorem ApplyIamPolicy_lock_held_throughout {σ : Type} (env : Env σ) (s : σ)
    (req : ApplyIamRequest) (iamConf : IamConf) (hload : env.loadConfig = Except.ok iamConf)
    (hclient : env.newClient = none) :
    ∃ body, (ApplyIamPolicy env s req).trace
        = Event.lock req.Project :: body ++ [Event.unlock req.Project]
      ∧ ∀ e ∈ body, isLockEvent e = false := by
  have htr := trace_ApplyIamPolicy_of_started env s req iamConf hload hclient
  obtain ⟨body, hb, _, hl⟩ :=
    retryLoop_ordered env.remote iamConf req 5 s [Event.lock req.Project] none
  refine ⟨body, ?_, hl⟩
  rw [htr, hb]
  simp

/-- Witness of C16: Scenario C, four failed attempts and a successful one under one lock. -/
theorem ApplyIamPolicy_lock_held_throughout_witness :
    scenarioCEnv.loadConfig = Except.ok scenarioATemplate ∧ scenarioCEnv.newClient = none
      ∧ ∃ body, (ApplyIamPolicy scenarioCEnv 0 scenarioARequest).trace
          = Event.lock scenarioARequest.Project :: body
            ++ [Event.unlock scenarioARequest.Project]
        ∧ ∀ e ∈ body, isLockEvent e = false :=
  ⟨rfl, rfl,
    ApplyIamPolicy_lock_held_throughout scenarioCEnv 0 scenarioARequest scenarioATemplate
      rfl rfl⟩

/-- C2 amended: with action add, when the first attempt succeeds, the two policies pushed are
the scrubbed fetched policy and then GetUpdatedPolicy of the fetched policy itself.  That last
policy holds the admin, user and vm service accounts in every role the template gives to their
placeholders; and when each role appears in at most one binding of the fetched policy, its
members of a role are exactly the fetched members of the role together with the resolved
template principals of the role, so a generated service account also keeps the roles it held
when fetched and the principals the template does not name keep theirs. -/
theorem ApplyIamPolicy_last_push_is_merge_of_fetched {σ : Type} (env : Env σ) (s s1 s2 s3 : σ)
    (req : ApplyIamRequest) (iamConf : IamConf) (fetched : Policy)
    (hload : env.loadConfig = Except.ok iamConf) (hclient : env.newClient = none)
    (hadd : req.Action = "add")
    (hfetch : env.remote.getIamPolicy s req.Project = (Except.ok fetched, s1))
    (hscrub : env.remote.setIamPolicy s1 req.Project (GetClearServiceAccountpolicy fetched req)
      = (none, s2))
    (hmerge : env.remote.setIamPolicy s2 req.Project (GetUpdatedPolicy fetched iamConf req)
      = (none, s3)) :
    pushes (ApplyIamPolicy env s req).trace
        = [GetClearServiceAccountpolicy fetched req, GetUpdatedPolicy fetched iamConf req]
      ∧ (∀ tb ∈ iamConf.IamBindings, ∀ r ∈ tb.Roles,
          ("set-kubeflow-admin-service-account" ∈ tb.Members →
              (GetUpdatedPolicy fetched iamConf req).hasMember r
                ("serviceAccount:" ++ req.Cluster ++ "-admin@" ++ req.Project
                  ++ ".iam.gserviceaccount.com"))
            ∧ ("set-kubeflow-user-service-account" ∈ tb.Members →
              (GetUpdatedPolicy fetched iamConf req).hasMember r
                ("serviceAccount:" ++ req.Cluster ++ "-user@" ++ req.Project
                  ++ ".iam.gserviceaccount.com"))
            ∧ ("set-kubeflow-vm-service-account" ∈ tb.Members →
              (GetUpdatedPolicy fetched iamConf req).hasMember r
                ("serviceAccount:" ++ req.Cluster ++ "-vm@" ++ req.Project
                  ++ ".iam.gserviceaccount.com")))
      ∧ (fetched.uniqueRoles → ∀ r m,
          ((GetUpdatedPolicy fetched iamConf req).hasMember r m
            ↔ fetched.hasMember r m ∨ templateMember iamConf req r m)) := by
  have hatt := attempt_of_success env.remote iamConf req s s1 s2 s3 fetched hfetch hscrub hmerge
  have hloop := retryLoop_first_success env.remote iamConf req 0 5 s
    [Event.lock req.Project] none (by omega) (fun j hj => absurd hj (by omega))
    (by simpa [storeAfter] using hatt.2)
  have htr := trace_ApplyIamPolicy_of_started env s req iamConf hload hclient
  have hin : ∀ (tb : IamBinding) (r x : String), tb ∈ iamConf.IamBindings → r ∈ tb.Roles →
      x ∈ tb.Members → (GetUpdatedPolicy fetched iamConf req).hasMember r (actualMember req x) := by
    intro tb r x htb hr hx
    rw [hasMember_GetUpdatedPolicy]
    exact Or.inl ⟨⟨tb, htb, hr, x, hx, rfl⟩, hadd⟩
  refine ⟨?_, ?_, ?_⟩
  · rw [htr, hloop]
    simp only [storeAfter, failedTrace, hatt.1]
    simp [pushes]
  · intro tb htb r hr
    refine ⟨fun hx => ?_, fun hx => ?_, fun hx => ?_⟩
    · rw [← actualMember_admin]
      exact hin tb r _ htb hr hx
    · rw [← actualMember_user]
      exact hin tb r _ htb hr hx
    · rw [← actualMember_vm]
      exact hin tb r _ htb hr hx
  · intro hu r m
    rw [hasMember_GetUpdatedPolicy_unique _ _ _ hu]
    tauto

/-- Witness of C2 amended (Scenario A): the last pushed policy is the merge of the fetched
policy, and the admin service account is a viewer in it because it was one when fetched. -/
theorem ApplyIamPolicy_last_push_is_merge_of_fetched_witness :
    scenarioAEnv.loadConfig = Except.ok scenarioATemplate ∧ scenarioAEnv.newClient = none
      ∧ scenarioARequest.Action = "add" ∧ scenarioAPolicy.uniqueRoles
      ∧ pushes (ApplyIamPolicy scenarioAEnv () scenarioARequest).trace
          = [GetClearServiceAccountpolicy scenarioAPolicy scenarioARequest,
              GetUpdatedPolicy scenarioAPolicy scenarioATemplate scenarioARequest]
      ∧ ((GetUpdatedPolicy scenarioAPolicy scenarioATemplate scenarioARequest).hasMember
            "roles/viewer" "serviceAccount:c1-admin@p1.iam.gserviceaccount.com"
          ↔ scenarioAPolicy.hasMember
              "roles/viewer" "serviceAccount:c1-admin@p1.iam.gserviceaccount.com"
            ∨ templateMember scenarioATemplate scenarioARequest
              "roles/viewer" "serviceAccount:c1-admin@p1.iam.gserviceaccount.com") :=
  ⟨rfl, rfl, rfl, by decide,
    (ApplyIamPolicy_last_push_is_merge_of_fetched scenarioAEnv () () () () scenarioARequest
      scenarioATemplate scenarioAPolicy rfl rfl rfl rfl rfl rfl).1,
    (ApplyIamPolicy_last_push_is_merge_of_fetched scenarioAEnv () () () () scenarioARequest
      scenarioATemplate scenarioAPolicy rfl rfl rfl rfl rfl rfl).2.2 (by decide)
      "roles/viewer" "serviceAccount:c1-admin@p1.iam.gserviceaccount.com"⟩

end GcpUtils
